import Mathlib

/-!
Verification of the Content_Shield (joshua7) validation engine.

The Python source is shallowly embedded: text is `List Char`, Python floats
are modelled as rationals (every numeric literal in the source is an exact
decimal), regex patterns are transcribed into a small backtracking
parser-combinator library whose preference order (ordered alternation,
greedy/lazy repetition) mirrors CPython's `re` backtracking engine, and
`re.finditer` is modelled by a left-to-right non-overlapping scanner.
Character classes `\d`, `\s`, `\w` are modelled on their ASCII portion;
every input appearing in a theorem below is ASCII, where the model agrees
with Python exactly.
-/

deriving instance DecidableEq for Except

namespace ContentShield

/-- Severity levels of `joshua7.models.Severity`. -/
inductive Severity where
  | info
  | warning
  | error
  | critical
deriving DecidableEq, Repr

/-- Scalar metadata values carried by findings. -/
inductive MetaVal where
  | str (s : String)
  | int (n : ℤ)
  | num (q : ℚ)
  | bool (b : Bool)
deriving DecidableEq, Repr

/-- `joshua7.models.ValidationFinding`. -/
structure Finding where
  validator_name : String
  severity : Severity
  message : String
  span : Option (Nat × Nat) := none
  metadata : List (String × MetaVal) := []
deriving DecidableEq, Repr

/-- `joshua7.models.ValidationResult`. -/
structure ValidationResult where
  validator_name : String
  passed : Bool
  score : Option ℚ := none
  findings : List Finding := []
deriving DecidableEq, Repr

/-! ### Python character-class and string primitives (ASCII portion) -/

/-- Python `\d` (ASCII portion), `[0-9]` as code points 48-57. -/
def isDigitPy (c : Char) : Bool := 48 ≤ c.toNat && c.toNat ≤ 57

/-- Python `\s`: space, `\t\n\r\x0b\x0c`, plus the extra whitespace code
points CPython recognises below U+0100 (`\x1c`-`\x1f`, `\x85`, `\xa0`). -/
def isSpacePy (c : Char) : Bool :=
  c.toNat = 32 || c.toNat = 9 || c.toNat = 10 || c.toNat = 13 ||
  c.toNat = 11 || c.toNat = 12 || c.toNat = 28 || c.toNat = 29 ||
  c.toNat = 30 || c.toNat = 31 || c.toNat = 133 || c.toNat = 160

/-- Python `\w` (ASCII portion): letters, digits, underscore. -/
def isWordPy (c : Char) : Bool :=
  (97 ≤ c.toNat && c.toNat ≤ 122) || (65 ≤ c.toNat && c.toNat ≤ 90) ||
  isDigitPy c || c.toNat = 95

/-- ASCII lowercasing, modelling `str.lower` / `re.IGNORECASE` on ASCII. -/
def lowerPy (c : Char) : Char :=
  if 65 ≤ c.toNat && c.toNat ≤ 90 then Char.ofNat (c.toNat + 32) else c

def lowerStr (s : List Char) : List Char := s.map lowerPy

/-! ### Backtracking parser combinators

A parser takes the input suffix and a continuation receiving the rest of
the input after the parser's consumption; alternatives and repetitions are
tried in CPython `re` preference order (first alternative first, greedy
repetition longest-first, lazy repetition shortest-first).  The final
continuation reports the length of the unconsumed rest, from which the
match length is recovered. -/

abbrev K := List Char → Option Nat
abbrev Parser := List Char → K → Option Nat

/-- Match one character satisfying `q`. -/
def pPred (q : Char → Bool) : Parser := fun s k =>
  match s with
  | [] => none
  | c :: cs => if q c then k cs else none

/-- Match the single character `c` (case-sensitive). -/
def pChar (c : Char) : Parser := pPred (· = c)

/-- The empty pattern. -/
def pEps : Parser := fun s k => k s

/-- Sequencing. -/
def pSeq (a b : Parser) : Parser := fun s k => a s (fun s' => b s' k)

/-- Ordered alternation: the left branch is preferred, as in `re`. -/
def pAlt (a b : Parser) : Parser := fun s k =>
  match a s k with
  | some r => some r
  | none => b s k

/-- Greedy option `X?`: presence is preferred. -/
def pOpt (a : Parser) : Parser := pAlt a pEps

/-- Greedy star over a character class, with backtracking (longest first). -/
def pManyG (q : Char → Bool) : Parser := fun s k =>
  match s with
  | [] => k []
  | c :: cs =>
    if q c then
      match pManyG q cs k with
      | some r => some r
      | none => k (c :: cs)
    else k (c :: cs)

/-- Lazy star over a character class (shortest first), for `.*?`. -/
def pManyLazy (q : Char → Bool) : Parser := fun s k =>
  match s with
  | [] => k []
  | c :: cs =>
    match k (c :: cs) with
    | some r => some r
    | none => if q c then pManyLazy q cs k else none

/-- `X+` over a character class, greedy. -/
def pMany1 (q : Char → Bool) : Parser := pSeq (pPred q) (pManyG q)

/-- Exactly `n` repetitions of a character class. -/
def pRepN (q : Char → Bool) : Nat → Parser
  | 0 => pEps
  | n + 1 => pSeq (pPred q) (pRepN q n)

/-- `{n,}` over a character class, greedy. -/
def pRepGe (q : Char → Bool) (n : Nat) : Parser := pSeq (pRepN q n) (pManyG q)

/-- Case-sensitive literal. -/
def pLit : List Char → Parser
  | [] => pEps
  | c :: cs => pSeq (pChar c) (pLit cs)

/-- Case-insensitive literal (`re.IGNORECASE`, ASCII model). -/
def pLitI : List Char → Parser
  | [] => pEps
  | c :: cs => pSeq (pPred (fun x => lowerPy x = lowerPy c)) (pLitI cs)

/-- Negative lookahead `(?!X)`: consumes nothing. -/
def pNegLook (a : Parser) : Parser := fun s k =>
  match a s (fun rest => some rest.length) with
  | some _ => none
  | none => k s

/-- Run a parser at the head of `s`, returning the match length in
preference order (the CPS continuation records the unconsumed length). -/
def matchLen (p : Parser) (s : List Char) : Option Nat :=
  match p s (fun rest => some rest.length) with
  | some r => some (s.length - r)
  | none => none

/-! ### Parser soundness: relating success to the consumed prefix -/

/-- `Sound p P`: whenever `p` succeeds, the input splits into a consumed
prefix satisfying `P` and a rest accepted by the continuation. -/
def Sound (p : Parser) (P : List Char → Prop) : Prop :=
  ∀ s k r, p s k = some r → ∃ pre rest, s = pre ++ rest ∧ P pre ∧ k rest = some r

theorem sound_mono {p : Parser} {P Q : List Char → Prop}
    (hp : Sound p P) (h : ∀ l, P l → Q l) : Sound p Q := by
  intro s k r hr
  obtain ⟨pre, rest, hs, hP, hk⟩ := hp s k r hr
  exact ⟨pre, rest, hs, h pre hP, hk⟩

theorem sound_pPred (q : Char → Bool) :
    Sound (pPred q) (fun pre => ∃ c, pre = [c] ∧ q c = true) := by
  intro s k r hr
  cases s with
  | nil => simp [pPred] at hr
  | cons c cs =>
    by_cases hq : q c
    · exact ⟨[c], cs, rfl, ⟨c, rfl, hq⟩, by simpa [pPred, hq] using hr⟩
    · simp [pPred, hq] at hr

theorem sound_pEps : Sound pEps (fun pre => pre = []) := by
  intro s k r hr
  exact ⟨[], s, rfl, rfl, hr⟩

theorem sound_pSeq {a b : Parser} {P Q : List Char → Prop}
    (ha : Sound a P) (hb : Sound b Q) :
    Sound (pSeq a b) (fun pre => ∃ p1 p2, pre = p1 ++ p2 ∧ P p1 ∧ Q p2) := by
  intro s k r hr
  obtain ⟨p1, rest1, hs1, hP, hk1⟩ := ha s _ r hr
  obtain ⟨p2, rest2, hs2, hQ, hk2⟩ := hb rest1 k r hk1
  exact ⟨p1 ++ p2, rest2, by simp [hs1, hs2], ⟨p1, p2, rfl, hP, hQ⟩, hk2⟩

theorem sound_pAlt {a b : Parser} {P Q : List Char → Prop}
    (ha : Sound a P) (hb : Sound b Q) :
    Sound (pAlt a b) (fun pre => P pre ∨ Q pre) := by
  intro s k r hr
  unfold pAlt at hr
  cases h : a s k with
  | some r' =>
    rw [h] at hr
    obtain ⟨pre, rest, hs, hP, hk⟩ := ha s k r' h
    exact ⟨pre, rest, hs, Or.inl hP, by simpa [← hr] using hk⟩
  | none =>
    rw [h] at hr
    obtain ⟨pre, rest, hs, hQ, hk⟩ := hb s k r hr
    exact ⟨pre, rest, hs, Or.inr hQ, hk⟩

theorem sound_pOpt {a : Parser} {P : List Char → Prop} (ha : Sound a P) :
    Sound (pOpt a) (fun pre => P pre ∨ pre = []) :=
  sound_pAlt ha sound_pEps

theorem sound_pManyG (q : Char → Bool) :
    Sound (pManyG q) (fun pre => ∀ c ∈ pre, q c = true) := by
  intro s
  induction s with
  | nil =>
    intro k r hr
    exact ⟨[], [], rfl, by simp, by simpa [pManyG] using hr⟩
  | cons c cs ih =>
    intro k r hr
    unfold pManyG at hr
    by_cases hq : q c
    · simp only [hq, if_true] at hr
      cases h : pManyG q cs k with
      | some r' =>
        rw [h] at hr
        obtain ⟨pre, rest, hs, hP, hk⟩ := ih k r' h
        refine ⟨c :: pre, rest, by simp [hs], ?_, by simpa [← hr] using hk⟩
        intro x hx
        rcases List.mem_cons.1 hx with rfl | hx'
        · exact hq
        · exact hP x hx'
      | none =>
        rw [h] at hr
        exact ⟨[], c :: cs, rfl, by simp, hr⟩
    · simp only [hq, if_false] at hr
      exact ⟨[], c :: cs, rfl, by simp, hr⟩

theorem sound_pManyLazy (q : Char → Bool) :
    Sound (pManyLazy q) (fun pre => ∀ c ∈ pre, q c = true) := by
  intro s
  induction s with
  | nil =>
    intro k r hr
    exact ⟨[], [], rfl, by simp, by simpa [pManyLazy] using hr⟩
  | cons c cs ih =>
    intro k r hr
    unfold pManyLazy at hr
    cases h : k (c :: cs) with
    | some r' =>
      rw [h] at hr
      exact ⟨[], c :: cs, rfl, by simp, by simpa [← hr] using h⟩
    | none =>
      rw [h] at hr
      by_cases hq : q c
      · simp only [hq, if_true] at hr
        obtain ⟨pre, rest, hs, hP, hk⟩ := ih k r hr
        refine ⟨c :: pre, rest, by simp [hs], ?_, hk⟩
        intro x hx
        rcases List.mem_cons.1 hx with rfl | hx'
        · exact hq
        · exact hP x hx'
      · simp [hq] at hr

theorem sound_pMany1 (q : Char → Bool) :
    Sound (pMany1 q) (fun pre => pre ≠ [] ∧ ∀ c ∈ pre, q c = true) := by
  refine sound_mono (sound_pSeq (sound_pPred q) (sound_pManyG q)) ?_
  rintro l ⟨p1, p2, rfl, ⟨c, rfl, hc⟩, hall⟩
  refine ⟨by simp, ?_⟩
  intro x hx
  rcases List.mem_cons.1 (by simpa using hx) with rfl | hx'
  · exact hc
  · exact hall x hx'

theorem sound_pRepN (q : Char → Bool) (n : Nat) :
    Sound (pRepN q n) (fun pre => pre.length = n ∧ ∀ c ∈ pre, q c = true) := by
  induction n with
  | zero =>
    refine sound_mono sound_pEps ?_
    rintro l rfl
    simp
  | succ n ih =>
    refine sound_mono (sound_pSeq (sound_pPred q) ih) ?_
    rintro l ⟨p1, p2, rfl, ⟨c, rfl, hc⟩, hlen, hall⟩
    refine ⟨by simp [hlen], ?_⟩
    intro x hx
    rcases List.mem_cons.1 (by simpa using hx) with rfl | hx'
    · exact hc
    · exact hall x hx'

theorem sound_pRepGe (q : Char → Bool) (n : Nat) :
    Sound (pRepGe q n) (fun pre => n ≤ pre.length ∧ ∀ c ∈ pre, q c = true) := by
  refine sound_mono (sound_pSeq (sound_pRepN q n) (sound_pManyG q)) ?_
  rintro l ⟨p1, p2, rfl, ⟨hlen, h1⟩, h2⟩
  constructor
  · simp [← hlen]
  · intro x hx
    rcases List.mem_append.1 hx with hx | hx
    · exact h1 x hx
    · exact h2 x hx

theorem sound_pLit (w : List Char) :
    Sound (pLit w) (fun pre => pre.length = w.length ∧ pre = w) := by
  induction w with
  | nil =>
    refine sound_mono sound_pEps ?_
    rintro l rfl
    simp
  | cons c cs ih =>
    refine sound_mono (sound_pSeq (sound_pPred _) ih) ?_
    rintro l ⟨p1, p2, rfl, ⟨x, rfl, hx⟩, hlen, rfl⟩
    refine ⟨by simp [hlen], ?_⟩
    simp only [decide_eq_true_eq] at hx
    simp [hx]

theorem sound_pLitI (w : List Char) :
    Sound (pLitI w) (fun pre => pre.length = w.length ∧ lowerStr pre = lowerStr w) := by
  induction w with
  | nil =>
    refine sound_mono sound_pEps ?_
    rintro l rfl
    simp
  | cons c cs ih =>
    refine sound_mono (sound_pSeq (sound_pPred _) ih) ?_
    rintro l ⟨p1, p2, rfl, ⟨x, rfl, hx⟩, hlen, hlow⟩
    simp only [decide_eq_true_eq] at hx
    refine ⟨by simp [hlen], ?_⟩
    simp only [lowerStr, List.singleton_append, List.map_cons] at hlow ⊢
    exact congrArg₂ List.cons hx (by simpa [lowerStr] using hlow)

theorem sound_pNegLook (a : Parser) : Sound (pNegLook a) (fun pre => pre = []) := by
  intro s k r hr
  unfold pNegLook at hr
  cases h : a s (fun rest => some rest.length) with
  | some r' => rw [h] at hr; cases hr
  | none => rw [h] at hr; exact ⟨[], s, rfl, rfl, hr⟩

/-- Soundness transported to `matchLen`: a successful match of length `L`
consumes a prefix of length `L` satisfying the parser's invariant. -/
theorem matchLen_sound {p : Parser} {P : List Char → Prop} (hp : Sound p P)
    {s : List Char} {L : Nat} (h : matchLen p s = some L) :
    ∃ pre rest, s = pre ++ rest ∧ pre.length = L ∧ P pre := by
  unfold matchLen at h
  cases hres : p s (fun rest => some rest.length) with
  | none => rw [hres] at h; cases h
  | some r =>
    rw [hres] at h
    obtain ⟨pre, rest, hs, hP, hk⟩ := hp s _ r hres
    have hrest : rest.length = r := by simpa using hk
    refine ⟨pre, rest, hs, ?_, hP⟩
    have : s.length = pre.length + rest.length := by simp [hs]
    simp only [Option.some_inj] at h
    omega

/-! ### `re.finditer`: left-to-right non-overlapping scan

Python's `finditer` attempts a match at each position; after a nonempty
match it resumes at the match end, after an empty match it advances one
position.  The matcher receives the character before the current position
so that look-behind assertions can be evaluated. -/

abbrev Matcher := Option Char → List Char → Option Nat

/-- Scan positions `pos, pos+1, ...` with `fuel` steps of budget; since every
step advances `pos` by at least one and scanning stops past the end of the
text, `text.length + 1` fuel is always enough. -/
def finditerAux (m : Matcher) (text : List Char) : Nat → Nat → List (Nat × Nat)
  | 0, _ => []
  | fuel + 1, pos =>
    if pos ≤ text.length then
      match m (if pos = 0 then none else text.get? (pos - 1)) (text.drop pos) with
      | none => if pos = text.length then [] else finditerAux m text fuel (pos + 1)
      | some 0 =>
          (pos, pos) :: (if pos = text.length then [] else finditerAux m text fuel (pos + 1))
      | some (l + 1) => (pos, pos + (l + 1)) :: finditerAux m text fuel (pos + (l + 1))
    else []

def finditer (m : Matcher) (text : List Char) : List (Nat × Nat) :=
  finditerAux m text (text.length + 1) 0

/-- Every span reported by the scanner comes from a successful match of the
matcher on the corresponding suffix of the text. -/
theorem finditerAux_spec (m : Matcher) (text : List Char) :
    ∀ fuel pos, ∀ ab ∈ finditerAux m text fuel pos,
      ∃ prev, m prev (text.drop ab.1) = some (ab.2 - ab.1) ∧ ab.1 ≤ ab.2 := by
  intro fuel
  induction fuel with
  | zero =>
    intro pos ab hab
    simp [finditerAux] at hab
  | succ n ih =>
    intro pos ab hab
    rw [finditerAux] at hab
    by_cases hpos : pos ≤ text.length
    · simp only [if_pos hpos] at hab
      cases hm : m (if pos = 0 then none else text.get? (pos - 1)) (text.drop pos) with
      | none =>
        rw [hm] at hab
        by_cases hend : pos = text.length
        · simp [hend] at hab
        · simp only [if_neg hend] at hab
          exact ih (pos + 1) ab hab
      | some L =>
        rw [hm] at hab
        cases L with
        | zero =>
          rcases List.mem_cons.1 hab with rfl | hab2
          · exact ⟨_, by simpa using hm, le_refl _⟩
          · by_cases hend : pos = text.length
            · simp [hend] at hab2
            · simp only [if_neg hend] at hab2
              exact ih (pos + 1) ab hab2
        | succ l =>
          rcases List.mem_cons.1 hab with rfl | hab2
          · exact ⟨_, by simpa using hm, by omega⟩
          · exact ih (pos + (l + 1)) ab hab2
    · simp [hpos] at hab

theorem finditer_spec (m : Matcher) (text : List Char) :
    ∀ ab ∈ finditer m text,
      ∃ prev, m prev (text.drop ab.1) = some (ab.2 - ab.1) ∧ ab.1 ≤ ab.2 :=
  finditerAux_spec m text (text.length + 1) 0

/-! ### PII validator (`joshua7/validators/pii.py`)

The four `_PII_PATTERNS` regexes transcribed combinator by combinator:
`email`: `[a-zA-Z0-9._%+\-]+@[a-zA-Z0-9.\-]+\.[a-zA-Z]{2,}`;
`phone`: `(?<!\d)(?:\+?1[\s\-.]?)?(?:\(\d{3}\)[\s\-.]?|\d{3}[\s\-.])\d{3}[\s\-.]?\d{4}(?!\d)`;
`ssn`: `(?<!\d)(?!000|666|9\d\d)\d{3}[\s\-](?!00)\d{2}[\s\-](?!0000)\d{4}(?!\d)`;
`credit_card`: `(?<!\d)(?:4\d{3}[\s\-]?\d{4}[\s\-]?\d{4}[\s\-]?\d{4}`
  `|5[1-5]\d{2}[\s\-]?\d{4}[\s\-]?\d{4}[\s\-]?\d{4}|3[47]\d{2}[\s\-]?\d{6}[\s\-]?\d{5}`
  `|6(?:011|5\d{2})[\s\-]?\d{4}[\s\-]?\d{4}[\s\-]?\d{4})(?!\d)`. -/

def isAsciiLetter (c : Char) : Bool :=
  (97 ≤ c.toNat && c.toNat ≤ 122) || (65 ≤ c.toNat && c.toNat ≤ 90)

def isAlphanumPy (c : Char) : Bool := isAsciiLetter c || isDigitPy c

/-- The class `[a-zA-Z0-9._%+\-]` of the email local part. -/
def isEmailLocalChar (c : Char) : Bool :=
  isAlphanumPy c || c = '.' || c = '_' || c = '%' || c = '+' || c = '-'

/-- The class `[a-zA-Z0-9.\-]` of the email domain part. -/
def isEmailDomainChar (c : Char) : Bool := isAlphanumPy c || c = '.' || c = '-'

def emailP : Parser :=
  pSeq (pMany1 isEmailLocalChar)
    (pSeq (pChar '@')
      (pSeq (pMany1 isEmailDomainChar)
        (pSeq (pChar '.') (pRepGe isAsciiLetter 2))))

/-- The class `[\s\-.]` used as phone separator (`-` is 45, `.` is 46). -/
def isPhoneSep (c : Char) : Bool := isSpacePy c || c.toNat = 45 || c.toNat = 46

/-- The class `[\s\-]` used as SSN / credit-card separator. -/
def isDashSep (c : Char) : Bool := isSpacePy c || c.toNat = 45

def phoneBody : Parser :=
  pAlt
    (pSeq (pChar '(')
      (pSeq (pRepN isDigitPy 3) (pSeq (pChar ')') (pOpt (pPred isPhoneSep)))))
    (pSeq (pRepN isDigitPy 3) (pPred isPhoneSep))

def phoneP : Parser :=
  pSeq (pOpt (pSeq (pOpt (pChar '+')) (pSeq (pChar '1') (pOpt (pPred isPhoneSep)))))
    (pSeq phoneBody
      (pSeq (pRepN isDigitPy 3)
        (pSeq (pOpt (pPred isPhoneSep))
          (pSeq (pRepN isDigitPy 4) (pNegLook (pPred isDigitPy))))))

def ssnP : Parser :=
  pSeq
    (pNegLook (pAlt (pLit "000".toList)
      (pAlt (pLit "666".toList)
        (pSeq (pChar '9') (pSeq (pPred isDigitPy) (pPred isDigitPy))))))
    (pSeq (pRepN isDigitPy 3)
      (pSeq (pPred isDashSep)
        (pSeq (pNegLook (pLit "00".toList))
          (pSeq (pRepN isDigitPy 2)
            (pSeq (pPred isDashSep)
              (pSeq (pNegLook (pLit "0000".toList))
                (pSeq (pRepN isDigitPy 4) (pNegLook (pPred isDigitPy)))))))))

def ccSepOpt : Parser := pOpt (pPred isDashSep)

def ccTail444 : Parser :=
  pSeq ccSepOpt
    (pSeq (pRepN isDigitPy 4)
      (pSeq ccSepOpt (pSeq (pRepN isDigitPy 4) (pSeq ccSepOpt (pRepN isDigitPy 4)))))

def ccVisa : Parser := pSeq (pChar '4') (pSeq (pRepN isDigitPy 3) ccTail444)

def ccMaster : Parser :=
  pSeq (pChar '5')
    (pSeq (pPred (fun c => '1' ≤ c && c ≤ '5')) (pSeq (pRepN isDigitPy 2) ccTail444))

def ccAmex : Parser :=
  pSeq (pChar '3')
    (pSeq (pPred (fun c => c = '4' || c = '7'))
      (pSeq (pRepN isDigitPy 2)
        (pSeq ccSepOpt (pSeq (pRepN isDigitPy 6) (pSeq ccSepOpt (pRepN isDigitPy 5))))))

def ccDiscover : Parser :=
  pSeq (pChar '6')
    (pSeq (pAlt (pLit "011".toList) (pSeq (pChar '5') (pRepN isDigitPy 2))) ccTail444)

def creditCardP : Parser :=
  pSeq (pAlt ccVisa (pAlt ccMaster (pAlt ccAmex ccDiscover))) (pNegLook (pPred isDigitPy))

/-- `(?<!\d)`: the scanner-supplied previous character must not be a digit. -/
def noDigitBefore (prev : Option Char) : Bool :=
  match prev with
  | some c => !isDigitPy c
  | none => true

def emailMatch : Matcher := fun _ s => matchLen emailP s

def phoneMatch : Matcher := fun prev s =>
  if noDigitBefore prev then matchLen phoneP s else none

def ssnMatch : Matcher := fun prev s =>
  if noDigitBefore prev then matchLen ssnP s else none

def creditCardMatch : Matcher := fun prev s =>
  if noDigitBefore prev then matchLen creditCardP s else none

/-- `_PII_PATTERNS`, in Python dict insertion order. -/
def _PII_PATTERNS : List (String × Matcher) :=
  [("email", emailMatch), ("phone", phoneMatch), ("ssn", ssnMatch),
   ("credit_card", creditCardMatch)]

/-- `_REDACT_MAP`. -/
def _REDACT_MAP : List (String × String) :=
  [("email", "***@***.***"), ("phone", "***-***-****"), ("ssn", "***-**-****"),
   ("credit_card", "****-****-****-****")]

def _redact (pii_type : String) : String :=
  (_REDACT_MAP.lookup pii_type).getD "***REDACTED***"

/-- ASCII uppercasing, modelling `str.upper`. -/
def upperPy (c : Char) : Char :=
  if 97 ≤ c.toNat && c.toNat ≤ 122 then Char.ofNat (c.toNat - 32) else c

def upperStr (s : String) : String := String.mk (s.toList.map upperPy)

def piiMessage (pii_type : String) : String :=
  "Potential " ++ upperStr pii_type ++ " detected (redacted: " ++ _redact pii_type ++ ")"

def piiFindingMk (pii_type : String) (span : Nat × Nat) : Finding :=
  { validator_name := "pii"
    severity := .critical
    message := piiMessage pii_type
    span := some span
    metadata := [("pii_type", .str pii_type), ("redacted", .str (_redact pii_type))] }

/-- `PIIValidator.validate`, with `self._active` inlined from `__init__`:
the patterns whose name is in `pii_patterns_enabled`. -/
def piiValidate (enabled : List String) (text : List Char) : ValidationResult :=
  let active := _PII_PATTERNS.filter (fun nm => enabled.contains nm.1)
  let findings := active.flatMap (fun nm => (finditer nm.2 text).map (piiFindingMk nm.1))
  { validator_name := "pii"
    passed := findings.isEmpty
    findings := findings }

/-! ### Matched substrings and the `in` relation -/

/-- The matched substring `text[a:b]` of a span. -/
def slice (text : List Char) (a b : Nat) : List Char := (text.drop a).take (b - a)

/-- Python's substring containment `m in s`. -/
def occursIn (m s : List Char) : Prop := ∃ u v, s = u ++ m ++ v

theorem occursIn_mem {m s : List Char} (h : occursIn m s) {c : Char} (hc : c ∈ m) :
    c ∈ s := by
  obtain ⟨u, v, rfl⟩ := h
  simp [hc]

/-- A string containing a character of class `q` does not occur inside a
string free of class `q`. -/
theorem not_occursIn_of_class {m s : List Char} {q : Char → Bool}
    (hm : ∃ c ∈ m, q c = true) (hs : ∀ c ∈ s, q c = false) : ¬ occursIn m s := by
  intro h
  obtain ⟨c, hc, hq⟩ := hm
  have := hs c (occursIn_mem h hc)
  simp [hq] at this

/-- Adjacent character pairs of a string. -/
def pairsOf (s : List Char) : List (Char × Char) := s.zip s.tail

theorem pair_mem_pairsOf : ∀ (w z : List Char) (x y : Char),
    (x, y) ∈ pairsOf (w ++ x :: y :: z) := by
  intro w
  induction w with
  | nil => intro z x y; simp [pairsOf]
  | cons c w' ih =>
    intro z x y
    have hne : (w' ++ x :: y :: z) ≠ [] := by simp
    cases hw : w' ++ x :: y :: z with
    | nil => exact absurd hw hne
    | cons d ds =>
      have := ih z x y
      rw [hw] at this
      simp only [pairsOf, List.cons_append, hw, List.zip_cons_cons, List.tail_cons]
      exact List.mem_cons_of_mem _ this

/-- If `l ++ '@' :: r` occurs in `s` with `l` nonempty, then `s` has an
adjacent pair `(x, '@')` with `x` the last character of `l`. -/
theorem at_pair_of_occursIn {l r s : List Char} (hl : l ≠ [])
    (h : occursIn (l ++ '@' :: r) s) :
    ∃ x ∈ l, (x, '@') ∈ pairsOf s := by
  obtain ⟨u, v, hs⟩ := h
  rcases List.eq_nil_or_concat l with rfl | ⟨l', x, rfl⟩
  · exact absurd rfl hl
  refine ⟨x, by simp, ?_⟩
  have : s = (u ++ l') ++ x :: '@' :: (r ++ v) := by
    simp only [hs]
    simp [List.append_assoc]
  rw [this]
  exact pair_mem_pairsOf _ _ _ _

/-! ### Per-pattern invariants of the PII matchers -/

theorem sound_emailP :
    Sound emailP (fun pre => ∃ l r, pre = l ++ '@' :: r ∧ l ≠ [] ∧
      ∀ c ∈ l, isEmailLocalChar c = true) := by
  have h := sound_pSeq (sound_pMany1 isEmailLocalChar)
    (sound_pSeq (sound_pPred (· = '@'))
      (sound_pSeq (sound_pMany1 isEmailDomainChar)
        (sound_pSeq (sound_pPred (· = '.')) (sound_pRepGe isAsciiLetter 2))))
  refine sound_mono h ?_
  rintro pre ⟨l, p2, rfl, ⟨hl, hlocal⟩, q1, q2, rfl, ⟨c, rfl, hc⟩, -⟩
  simp only [decide_eq_true_eq] at hc
  subst hc
  exact ⟨l, q2, by simp, hl, hlocal⟩

theorem sound_phoneBody_sep :
    Sound phoneBody (fun pre => ∃ c ∈ pre, (c = '(' || isPhoneSep c) = true) := by
  have h := sound_pAlt
    (sound_pSeq (sound_pPred (· = '('))
      (sound_pSeq (sound_pRepN isDigitPy 3)
        (sound_pSeq (sound_pPred (· = ')')) (sound_pOpt (sound_pPred isPhoneSep)))))
    (sound_pSeq (sound_pRepN isDigitPy 3) (sound_pPred isPhoneSep))
  refine sound_mono h ?_
  rintro pre (⟨p1, p2, rfl, ⟨c, rfl, hc⟩, -⟩ | ⟨p1, p2, rfl, -, ⟨c, rfl, hc⟩⟩)
  · simp only [decide_eq_true_eq] at hc
    subst hc
    exact ⟨'(', by simp, by simp⟩
  · exact ⟨c, by simp, by simp [hc]⟩

theorem sound_phoneP_digit :
    Sound phoneP (fun pre => ∃ c ∈ pre, isDigitPy c = true) := by
  have h := sound_pSeq
    (sound_pOpt (sound_pSeq (sound_pOpt (sound_pPred (· = '+')))
      (sound_pSeq (sound_pPred (· = '1')) (sound_pOpt (sound_pPred isPhoneSep)))))
    (sound_pSeq sound_phoneBody_sep
      (sound_pSeq (sound_pRepN isDigitPy 3)
        (sound_pSeq (sound_pOpt (sound_pPred isPhoneSep))
          (sound_pSeq (sound_pRepN isDigitPy 4) (sound_pNegLook (pPred isDigitPy))))))
  refine sound_mono h ?_
  rintro pre ⟨p1, p2, rfl, -, q1, q2, rfl, -, r1, r2, rfl, ⟨hlen, hdig⟩, -⟩
  cases r1 with
  | nil => simp at hlen
  | cons x xs => exact ⟨x, by simp, hdig x (by simp)⟩

theorem sound_phoneP_sep :
    Sound phoneP (fun pre => ∃ c ∈ pre, (c = '(' || isPhoneSep c) = true) := by
  have h := sound_pSeq
    (sound_pOpt (sound_pSeq (sound_pOpt (sound_pPred (· = '+')))
      (sound_pSeq (sound_pPred (· = '1')) (sound_pOpt (sound_pPred isPhoneSep)))))
    (sound_pSeq sound_phoneBody_sep
      (sound_pSeq (sound_pRepN isDigitPy 3)
        (sound_pSeq (sound_pOpt (sound_pPred isPhoneSep))
          (sound_pSeq (sound_pRepN isDigitPy 4) (sound_pNegLook (pPred isDigitPy))))))
  refine sound_mono h ?_
  rintro pre ⟨p1, p2, rfl, -, q1, q2, rfl, ⟨c, hc, hcc⟩, -⟩
  exact ⟨c, by simp [hc], hcc⟩

theorem sound_ssnP_digit :
    Sound ssnP (fun pre => ∃ c ∈ pre, isDigitPy c = true) := by
  have h := sound_pSeq
    (sound_pNegLook (pAlt (pLit "000".toList)
      (pAlt (pLit "666".toList)
        (pSeq (pChar '9') (pSeq (pPred isDigitPy) (pPred isDigitPy))))))
    (sound_pSeq (sound_pRepN isDigitPy 3)
      (sound_pSeq (sound_pPred isDashSep)
        (sound_pSeq (sound_pNegLook (pLit "00".toList))
          (sound_pSeq (sound_pRepN isDigitPy 2)
            (sound_pSeq (sound_pPred isDashSep)
              (sound_pSeq (sound_pNegLook (pLit "0000".toList))
                (sound_pSeq (sound_pRepN isDigitPy 4)
                  (sound_pNegLook (pPred isDigitPy)))))))))
  refine sound_mono h ?_
  rintro _pre ⟨p1, p2, rfl, -, q1, q2, rfl, ⟨hlen, hdig⟩, -⟩
  cases q1 with
  | nil => simp at hlen
  | cons x xs => exact ⟨x, by simp, hdig x (by simp)⟩

theorem sound_ccTail444 :
    Sound ccTail444 (fun _pre => True) := by
  have h := sound_pSeq (sound_pOpt (sound_pPred isDashSep))
    (sound_pSeq (sound_pRepN isDigitPy 4)
      (sound_pSeq (sound_pOpt (sound_pPred isDashSep))
        (sound_pSeq (sound_pRepN isDigitPy 4)
          (sound_pSeq (sound_pOpt (sound_pPred isDashSep)) (sound_pRepN isDigitPy 4)))))
  exact sound_mono h (fun _ _ => trivial)

theorem sound_creditCardP_digit :
    Sound creditCardP (fun pre => ∃ c ∈ pre, isDigitPy c = true) := by
  have h4 : Sound ccVisa (fun pre => ∃ c ∈ pre, isDigitPy c = true) := by
    refine sound_mono (sound_pSeq (sound_pPred (· = '4'))
      (sound_pSeq (sound_pRepN isDigitPy 3) sound_ccTail444)) ?_
    rintro pre ⟨p1, p2, rfl, ⟨c, rfl, hc⟩, -⟩
    simp only [decide_eq_true_eq] at hc
    subst hc
    exact ⟨'4', by simp, by decide⟩
  have h5 : Sound ccMaster (fun pre => ∃ c ∈ pre, isDigitPy c = true) := by
    refine sound_mono (sound_pSeq (sound_pPred (· = '5'))
      (sound_pSeq (sound_pPred (fun c => '1' ≤ c && c ≤ '5'))
        (sound_pSeq (sound_pRepN isDigitPy 2) sound_ccTail444))) ?_
    rintro pre ⟨p1, p2, rfl, ⟨c, rfl, hc⟩, -⟩
    simp only [decide_eq_true_eq] at hc
    subst hc
    exact ⟨'5', by simp, by decide⟩
  have h3 : Sound ccAmex (fun pre => ∃ c ∈ pre, isDigitPy c = true) := by
    refine sound_mono (sound_pSeq (sound_pPred (· = '3'))
      (sound_pSeq (sound_pPred (fun c => c = '4' || c = '7'))
        (sound_pSeq (sound_pRepN isDigitPy 2)
          (sound_pSeq (sound_pOpt (sound_pPred isDashSep))
            (sound_pSeq (sound_pRepN isDigitPy 6)
              (sound_pSeq (sound_pOpt (sound_pPred isDashSep))
                (sound_pRepN isDigitPy 5))))))) ?_
    rintro pre ⟨p1, p2, rfl, ⟨c, rfl, hc⟩, -⟩
    simp only [decide_eq_true_eq] at hc
    subst hc
    exact ⟨'3', by simp, by decide⟩
  have h6 : Sound ccDiscover (fun pre => ∃ c ∈ pre, isDigitPy c = true) := by
    refine sound_mono (sound_pSeq (sound_pPred (· = '6'))
      (sound_pSeq (sound_pAlt (sound_pLit "011".toList)
        (sound_pSeq (sound_pPred (· = '5')) (sound_pRepN isDigitPy 2))) sound_ccTail444)) ?_
    rintro pre ⟨p1, p2, rfl, ⟨c, rfl, hc⟩, -⟩
    simp only [decide_eq_true_eq] at hc
    subst hc
    exact ⟨'6', by simp, by decide⟩
  have h := sound_pSeq (sound_pAlt h4 (sound_pAlt h5 (sound_pAlt h3 h6)))
    (sound_pNegLook (pPred isDigitPy))
  refine sound_mono h ?_
  rintro pre ⟨p1, p2, rfl, hp1, -⟩
  rcases hp1 with h | h | h | h <;>
    · obtain ⟨c, hc, hq⟩ := h
      exact ⟨c, by simp [hc], hq⟩

theorem slice_eq_pre {text : List Char} {a b : Nat} {pre rest : List Char}
    (hsplit : text.drop a = pre ++ rest) (hlen : pre.length = b - a) :
    slice text a b = pre := by
  unfold slice
  rw [hsplit, ← hlen, List.take_left]

theorem phoneMatch_eq {prev : Option Char} {s : List Char} {L : Nat}
    (h : phoneMatch prev s = some L) : matchLen phoneP s = some L := by
  unfold phoneMatch at h
  by_cases hg : noDigitBefore prev
  · simpa [hg] using h
  · simp [hg] at h

theorem ssnMatch_eq {prev : Option Char} {s : List Char} {L : Nat}
    (h : ssnMatch prev s = some L) : matchLen ssnP s = some L := by
  unfold ssnMatch at h
  by_cases hg : noDigitBefore prev
  · simpa [hg] using h
  · simp [hg] at h

theorem creditCardMatch_eq {prev : Option Char} {s : List Char} {L : Nat}
    (h : creditCardMatch prev s = some L) : matchLen creditCardP s = some L := by
  unfold creditCardMatch at h
  by_cases hg : noDigitBefore prev
  · simpa [hg] using h
  · simp [hg] at h

/-- A successful match of a digit-containing pattern puts a digit in the
matched slice. -/
theorem slice_digit_of_match {p : Parser}
    (hp : Sound p (fun pre => ∃ c ∈ pre, isDigitPy c = true))
    {text : List Char} {a b : Nat}
    (hm : matchLen p (text.drop a) = some (b - a)) :
    ∃ c ∈ slice text a b, isDigitPy c = true := by
  obtain ⟨pre, rest, hsplit, hlen, c, hc, hq⟩ := matchLen_sound hp hm
  rw [slice_eq_pre hsplit hlen]
  exact ⟨c, hc, hq⟩

theorem not_occursIn_email_shape {l r s : List Char} (hl : l ≠ [])
    (hlocal : ∀ c ∈ l, isEmailLocalChar c = true)
    (hpairs : ∀ p ∈ pairsOf s, p.2 = '@' → p.1 = '*') :
    ¬ occursIn (l ++ '@' :: r) s := by
  intro h
  obtain ⟨x, hx, hpair⟩ := at_pair_of_occursIn hl h
  have hstar : x = '*' := hpairs _ hpair rfl
  have hloc := hlocal x hx
  rw [hstar] at hloc
  exact absurd hloc (by decide)

theorem not_occursIn_email_no_at {l r s : List Char}
    (hs : '@' ∉ s) : ¬ occursIn (l ++ '@' :: r) s := by
  intro h
  exact hs (occursIn_mem h (by simp))

/-- C1.  Every finding emitted by the PII check comes from a match of one of
the four patterns; its metadata has exactly the keys `pii_type` and
`redacted`; its message is the fixed template naming the PII type and that
type's placeholder; and the matched substring occurs neither in the message
nor in any string value of the metadata. -/
theorem pii_finding_never_echoes_match (enabled : List String) (text : List Char)
    (f : Finding) (hf : f ∈ (piiValidate enabled text).findings) :
    ∃ nm ∈ _PII_PATTERNS, ∃ ab ∈ finditer nm.2 text,
      f = piiFindingMk nm.1 ab ∧
      f.metadata.map Prod.fst = ["pii_type", "redacted"] ∧
      f.message = "Potential " ++ upperStr nm.1 ++ " detected (redacted: " ++
        _redact nm.1 ++ ")" ∧
      ¬ occursIn (slice text ab.1 ab.2) f.message.toList ∧
      ∀ p ∈ f.metadata, ∀ v, p.2 = MetaVal.str v →
        ¬ occursIn (slice text ab.1 ab.2) v.toList := by
  simp only [piiValidate, List.mem_flatMap, List.mem_map, List.mem_filter] at hf
  obtain ⟨nm, ⟨hnmMem, -⟩, ab, habMem, rfl⟩ := hf
  refine ⟨nm, hnmMem, ab, habMem, rfl, ?_⟩
  simp only [_PII_PATTERNS, List.mem_cons, List.not_mem_nil, or_false] at hnmMem
  obtain ⟨prev, hm, -⟩ := finditer_spec nm.2 text ab habMem
  rcases hnmMem with rfl | rfl | rfl | rfl
  · -- email
    have hml : matchLen emailP (text.drop ab.1) = some (ab.2 - ab.1) := hm
    obtain ⟨pre, rest, hsplit, hlen, l, r, hpre, hl, hlocal⟩ :=
      matchLen_sound sound_emailP hml
    have hslice : slice text ab.1 ab.2 = l ++ '@' :: r := by
      rw [slice_eq_pre hsplit hlen, hpre]
    have hmsgPairs : ∀ p ∈ pairsOf (piiMessage "email").toList, p.2 = '@' → p.1 = '*' := by
      decide
    have hredPairs : ∀ p ∈ pairsOf (_redact "email").toList, p.2 = '@' → p.1 = '*' := by
      decide
    have hnoAt : '@' ∉ "email".toList := by decide
    refine ⟨rfl, rfl, ?_, ?_⟩
    · rw [hslice]
      exact not_occursIn_email_shape hl hlocal hmsgPairs
    · rintro p hp v hv
      simp only [piiFindingMk, List.mem_cons, List.not_mem_nil, or_false] at hp
      rcases hp with rfl | rfl <;> simp only at hv <;> cases hv <;> rw [hslice]
      · exact not_occursIn_email_no_at hnoAt
      · exact not_occursIn_email_shape hl hlocal hredPairs
  · -- phone
    have hdig := slice_digit_of_match sound_phoneP_digit (phoneMatch_eq hm)
    have hmsgFree : ∀ c ∈ (piiMessage "phone").toList, isDigitPy c = false := by decide
    have htypeFree : ∀ c ∈ "phone".toList, isDigitPy c = false := by decide
    have hredFree : ∀ c ∈ (_redact "phone").toList, isDigitPy c = false := by decide
    refine ⟨rfl, rfl, not_occursIn_of_class hdig hmsgFree, ?_⟩
    rintro p hp v hv
    simp only [piiFindingMk, List.mem_cons, List.not_mem_nil, or_false] at hp
    rcases hp with rfl | rfl <;> simp only at hv <;> cases hv
    · exact not_occursIn_of_class hdig htypeFree
    · exact not_occursIn_of_class hdig hredFree
  · -- ssn
    have hdig := slice_digit_of_match sound_ssnP_digit (ssnMatch_eq hm)
    have hmsgFree : ∀ c ∈ (piiMessage "ssn").toList, isDigitPy c = false := by decide
    have htypeFree : ∀ c ∈ "ssn".toList, isDigitPy c = false := by decide
    have hredFree : ∀ c ∈ (_redact "ssn").toList, isDigitPy c = false := by decide
    refine ⟨rfl, rfl, not_occursIn_of_class hdig hmsgFree, ?_⟩
    rintro p hp v hv
    simp only [piiFindingMk, List.mem_cons, List.not_mem_nil, or_false] at hp
    rcases hp with rfl | rfl <;> simp only at hv <;> cases hv
    · exact not_occursIn_of_class hdig htypeFree
    · exact not_occursIn_of_class hdig hredFree
  · -- credit_card
    have hdig := slice_digit_of_match sound_creditCardP_digit (creditCardMatch_eq hm)
    have hmsgFree : ∀ c ∈ (piiMessage "credit_card").toList, isDigitPy c = false := by decide
    have htypeFree : ∀ c ∈ "credit_card".toList, isDigitPy c = false := by decide
    have hredFree : ∀ c ∈ (_redact "credit_card").toList, isDigitPy c = false := by decide
    refine ⟨rfl, rfl, not_occursIn_of_class hdig hmsgFree, ?_⟩
    rintro p hp v hv
    simp only [piiFindingMk, List.mem_cons, List.not_mem_nil, or_false] at hp
    rcases hp with rfl | rfl <;> simp only at hv <;> cases hv
    · exact not_occursIn_of_class hdig htypeFree
    · exact not_occursIn_of_class hdig hredFree

/-! ### Phone-pattern shape lemmas (C8) -/

theorem ne_of_class {q : Char → Bool} {x c : Char} (hx : q x = true) (hc : q c = false) :
    decide (x = c) = false :=
  decide_eq_false fun h => by subst h; rw [hx] at hc; cases hc

theorem phoneSep_not_digit {x : Char} (h : isPhoneSep x = true) : isDigitPy x = false := by
  simp only [isPhoneSep, isSpacePy, Bool.or_eq_true, decide_eq_true_eq] at h
  simp only [isDigitPy, Bool.and_eq_true, decide_eq_true_eq, Bool.and_eq_false_iff,
    decide_eq_false_iff_not]
  omega

theorem digit_not_phoneSep {x : Char} (h : isDigitPy x = true) : isPhoneSep x = false := by
  simp only [isDigitPy, Bool.and_eq_true, decide_eq_true_eq] at h
  simp only [isPhoneSep, isSpacePy, Bool.or_eq_false_iff, decide_eq_false_iff_not]
  omega

/-- On an all-digit text the phone pattern never matches: any match must
contain a `(` or a separator character. -/
theorem phone_all_digits_no_match (s : List Char)
    (hall : ∀ c ∈ s, isDigitPy c = true) : finditer phoneMatch s = [] := by
  by_contra hne
  obtain ⟨ab, hab⟩ := List.exists_mem_of_ne_nil _ hne
  obtain ⟨prev, hm, -⟩ := finditer_spec _ _ ab hab
  obtain ⟨pre, rest, hsplit, hlen, c, hcmem, hcc⟩ :=
    matchLen_sound sound_phoneP_sep (phoneMatch_eq hm)
  have hcs : c ∈ s := by
    have hdropmem : c ∈ s.drop ab.1 := by rw [hsplit]; simp [hcmem]
    exact List.mem_of_mem_drop hdropmem
  have hdig := hall c hcs
  simp only [Bool.or_eq_true, decide_eq_true_eq] at hcc
  rcases hcc with rfl | hsep
  · exact absurd hdig (by decide)
  · rw [phoneSep_not_digit hsep] at hdig
    cases hdig

/-- No phone finding can be produced on an all-digit text, for any enabled
pattern set. -/
theorem phone_all_digits_no_finding (s : List Char)
    (hall : ∀ c ∈ s, isDigitPy c = true) (enabled : List String) (ab : Nat × Nat) :
    piiFindingMk "phone" ab ∉ (piiValidate enabled s).findings := by
  intro hmem
  simp only [piiValidate, List.mem_flatMap, List.mem_map, List.mem_filter] at hmem
  obtain ⟨nm, ⟨hnm, -⟩, ab', hab', heq⟩ := hmem
  simp only [piiFindingMk, Finding.mk.injEq, Prod.mk.injEq, List.cons.injEq,
    MetaVal.str.injEq, piiMessage, and_true, Option.some.injEq] at heq
  simp only [_PII_PATTERNS, List.mem_cons, List.not_mem_nil, or_false] at hnm
  rcases hnm with rfl | rfl | rfl | rfl
  · simp at heq
  · rw [phone_all_digits_no_match s hall] at hab'
    cases hab'
  · simp at heq
  · simp at heq

/-- `ddd<sep>ddd<sep>dddd` matches the phone pattern at position 0 with
length 12.  The case split on whether the first digit is `1` follows the
optional `+1` prefix of the pattern. -/
theorem phone_sep_form_match (a b c d e f g h i j S T : Char)
    (ha : isDigitPy a = true) (hb : isDigitPy b = true) (hc : isDigitPy c = true)
    (hd : isDigitPy d = true) (he : isDigitPy e = true) (hf : isDigitPy f = true)
    (hg : isDigitPy g = true) (hh : isDigitPy h = true) (hi : isDigitPy i = true)
    (hj : isDigitPy j = true) (hS : isPhoneSep S = true) (hT : isPhoneSep T = true) :
    phoneMatch none [a, b, c, S, d, e, f, T, g, h, i, j] = some 12 := by
  have hSd := phoneSep_not_digit hS
  have hTd := phoneSep_not_digit hT
  have haP := ne_of_class ha (c := '+') (by decide)
  have haL := ne_of_class ha (c := '(') (by decide)
  have hbL := ne_of_class hb (c := '(') (by decide)
  have hSb := ne_of_class hS (q := isPhoneSep) (c := '(') (by decide)
  have hbSep := digit_not_phoneSep hb
  by_cases ha1 : a = '1'
  · subst ha1
    simp [phoneMatch, noDigitBefore, matchLen, phoneP, phoneBody, pSeq, pAlt, pOpt, pEps,
      pChar, pPred, pRepN, pNegLook, ha, hb, hc, hd, he, hf, hg, hh, hi, hj, hS, hT,
      hSd, hTd, haP, haL, hbL, hSb, hbSep]
  · have ha1' : decide (a = '1') = false := decide_eq_false ha1
    simp [phoneMatch, noDigitBefore, matchLen, phoneP, phoneBody, pSeq, pAlt, pOpt, pEps,
      pChar, pPred, pRepN, pNegLook, ha, hb, hc, hd, he, hf, hg, hh, hi, hj, hS, hT,
      hSd, hTd, haP, haL, hbL, hSb, hbSep, ha1']

/-- `(ddd) ddd-dddd` matches the phone pattern at position 0 with length 14. -/
theorem phone_paren_form_match (a b c d e f g h i j : Char)
    (ha : isDigitPy a = true) (hb : isDigitPy b = true) (hc : isDigitPy c = true)
    (hd : isDigitPy d = true) (he : isDigitPy e = true) (hf : isDigitPy f = true)
    (hg : isDigitPy g = true) (hh : isDigitPy h = true) (hi : isDigitPy i = true)
    (hj : isDigitPy j = true) :
    phoneMatch none ['(', a, b, c, ')', ' ', d, e, f, '-', g, h, i, j] = some 14 := by
  have hsp : isPhoneSep ' ' = true := by decide
  have hdash : isPhoneSep '-' = true := by decide
  simp [phoneMatch, noDigitBefore, matchLen, phoneP, phoneBody, pSeq, pAlt, pOpt, pEps,
    pChar, pPred, pRepN, pNegLook, ha, hb, hc, hd, he, hf, hg, hh, hi, hj, hsp, hdash]

/-- `+1 ddd<sep>ddd<sep>dddd` matches the phone pattern at position 0 with
length 15. -/
theorem phone_plus_form_match (a b c d e f g h i j S T : Char)
    (ha : isDigitPy a = true) (hb : isDigitPy b = true) (hc : isDigitPy c = true)
    (hd : isDigitPy d = true) (he : isDigitPy e = true) (hf : isDigitPy f = true)
    (hg : isDigitPy g = true) (hh : isDigitPy h = true) (hi : isDigitPy i = true)
    (hj : isDigitPy j = true) (hS : isPhoneSep S = true) (hT : isPhoneSep T = true) :
    phoneMatch none ['+', '1', ' ', a, b, c, S, d, e, f, T, g, h, i, j] = some 15 := by
  have haL := ne_of_class ha (c := '(') (by decide)
  have hsp : isPhoneSep ' ' = true := by decide
  simp [phoneMatch, noDigitBefore, matchLen, phoneP, phoneBody, pSeq, pAlt, pOpt, pEps,
    pChar, pPred, pRepN, pNegLook, ha, hb, hc, hd, he, hf, hg, hh, hi, hj, hS, hT, haL, hsp]

/-- A matcher that consumes the whole text at position 0 and rejects at the
end position yields exactly one span. -/
theorem finditer_full_match {m : Matcher} {s : List Char} (hs : s ≠ [])
    (hm : m none s = some s.length)
    (hend : ∀ prev, m prev [] = none) :
    finditer m s = [(0, s.length)] := by
  obtain ⟨c, cs, rfl⟩ := List.exists_cons_of_ne_nil hs
  have hm2 : m none (c :: cs) = some (cs.length + 1) := by simpa using hm
  unfold finditer
  simp only [List.length_cons]
  simp [finditerAux, hm2, hend]

/-- The phone matcher rejects the empty suffix. -/
theorem phoneMatch_nil (prev : Option Char) : phoneMatch prev [] = none := by
  unfold phoneMatch
  by_cases h : noDigitBefore prev
  · simp only [h, if_true]
    decide
  · simp [h]

/-- C8.  A bare run of ten or more digits with no separators and no
parentheses never matches the phone pattern and yields no phone finding;
the forms `ddd<sep>ddd<sep>dddd` (sep a separator such as `-`, `.` or
space), `(ddd) ddd-dddd`, and `+1 ddd<sep>ddd<sep>dddd` match the phone
pattern, the first producing a phone finding of the PII check. -/
theorem phone_pattern_respects_shapes :
    (∀ s : List Char, 10 ≤ s.length → (∀ c ∈ s, isDigitPy c = true) →
      finditer phoneMatch s = [] ∧
        ∀ enabled ab, piiFindingMk "phone" ab ∉ (piiValidate enabled s).findings) ∧
    (∀ a b c d e f g h i j S T : Char,
      isDigitPy a = true → isDigitPy b = true → isDigitPy c = true →
      isDigitPy d = true → isDigitPy e = true → isDigitPy f = true →
      isDigitPy g = true → isDigitPy h = true → isDigitPy i = true →
      isDigitPy j = true → isPhoneSep S = true → isPhoneSep T = true →
      finditer phoneMatch [a, b, c, S, d, e, f, T, g, h, i, j] = [(0, 12)] ∧
      piiFindingMk "phone" (0, 12) ∈
        (piiValidate ["phone"] [a, b, c, S, d, e, f, T, g, h, i, j]).findings) ∧
    (∀ a b c d e f g h i j : Char,
      isDigitPy a = true → isDigitPy b = true → isDigitPy c = true →
      isDigitPy d = true → isDigitPy e = true → isDigitPy f = true →
      isDigitPy g = true → isDigitPy h = true → isDigitPy i = true →
      isDigitPy j = true →
      finditer phoneMatch ['(', a, b, c, ')', ' ', d, e, f, '-', g, h, i, j] =
        [(0, 14)]) ∧
    (∀ a b c d e f g h i j S T : Char,
      isDigitPy a = true → isDigitPy b = true → isDigitPy c = true →
      isDigitPy d = true → isDigitPy e = true → isDigitPy f = true →
      isDigitPy g = true → isDigitPy h = true → isDigitPy i = true →
      isDigitPy j = true → isPhoneSep S = true → isPhoneSep T = true →
      finditer phoneMatch ['+', '1', ' ', a, b, c, S, d, e, f, T, g, h, i, j] =
        [(0, 15)]) := by
  refine ⟨?_, ?_, ?_, ?_⟩
  · intro s _ hall
    exact ⟨phone_all_digits_no_match s hall,
      fun enabled ab => phone_all_digits_no_finding s hall enabled ab⟩
  · intro a b c d e f g h i j S T ha hb hc hd he hf hg hh hi hj hS hT
    have hfind : finditer phoneMatch [a, b, c, S, d, e, f, T, g, h, i, j] = [(0, 12)] := by
      have := finditer_full_match (m := phoneMatch)
        (s := [a, b, c, S, d, e, f, T, g, h, i, j]) (by simp)
        (phone_sep_form_match a b c d e f g h i j S T ha hb hc hd he hf hg hh hi hj hS hT)
        phoneMatch_nil
      simpa using this
    refine ⟨hfind, ?_⟩
    simp [piiValidate, _PII_PATTERNS, hfind]
  · intro a b c d e f g h i j ha hb hc hd he hf hg hh hi hj
    have := finditer_full_match (m := phoneMatch)
      (s := ['(', a, b, c, ')', ' ', d, e, f, '-', g, h, i, j]) (by simp)
      (phone_paren_form_match a b c d e f g h i j ha hb hc hd he hf hg hh hi hj)
      phoneMatch_nil
    simpa using this
  · intro a b c d e f g h i j S T ha hb hc hd he hf hg hh hi hj hS hT
    have := finditer_full_match (m := phoneMatch)
      (s := ['+', '1', ' ', a, b, c, S, d, e, f, T, g, h, i, j]) (by simp)
      (phone_plus_form_match a b c d e f g h i j S T ha hb hc hd he hf hg hh hi hj hS hT)
      phoneMatch_nil
    simpa using this

/-- Concrete instantiation of the phone-shape theorem. -/
theorem phone_pattern_respects_shapes_witness :
    (finditer phoneMatch ['1', '2', '3', '4', '5', '6', '7', '8', '9', '0'] = [] ∧
      ∀ enabled ab, piiFindingMk "phone" ab ∉
        (piiValidate enabled ['1', '2', '3', '4', '5', '6', '7', '8', '9', '0']).findings) ∧
    (finditer phoneMatch ['5', '5', '5', '-', '1', '2', '3', '-', '4', '5', '6', '7'] =
        [(0, 12)] ∧
      piiFindingMk "phone" (0, 12) ∈
        (piiValidate ["phone"]
          ['5', '5', '5', '-', '1', '2', '3', '-', '4', '5', '6', '7']).findings) ∧
    finditer phoneMatch
      ['(', '5', '5', '5', ')', ' ', '1', '2', '3', '-', '4', '5', '6', '7'] = [(0, 14)] ∧
    finditer phoneMatch
      ['+', '1', ' ', '5', '5', '5', '.', '1', '2', '3', '.', '4', '5', '6', '7'] =
      [(0, 15)] :=
  ⟨phone_pattern_respects_shapes.1 _ (by decide) (by decide),
   phone_pattern_respects_shapes.2.1 '5' '5' '5' '1' '2' '3' '4' '5' '6' '7' '-' '-'
     (by decide) (by decide) (by decide) (by decide) (by decide) (by decide)
     (by decide) (by decide) (by decide) (by decide) (by decide) (by decide),
   phone_pattern_respects_shapes.2.2.1 '5' '5' '5' '1' '2' '3' '4' '5' '6' '7'
     (by decide) (by decide) (by decide) (by decide) (by decide) (by decide)
     (by decide) (by decide) (by decide) (by decide),
   phone_pattern_respects_shapes.2.2.2 '5' '5' '5' '1' '2' '3' '4' '5' '6' '7' '.' '.'
     (by decide) (by decide) (by decide) (by decide) (by decide) (by decide)
     (by decide) (by decide) (by decide) (by decide) (by decide) (by decide)⟩

/-- Concrete instantiation of the PII finding-safety theorem. -/
theorem pii_finding_never_echoes_match_witness :
    piiFindingMk "email" (0, 6) ∈ (piiValidate ["email"] "a@b.co".toList).findings ∧
    (∃ nm ∈ _PII_PATTERNS, ∃ ab ∈ finditer nm.2 "a@b.co".toList,
      piiFindingMk "email" (0, 6) = piiFindingMk nm.1 ab ∧
      (piiFindingMk "email" (0, 6)).metadata.map Prod.fst = ["pii_type", "redacted"] ∧
      (piiFindingMk "email" (0, 6)).message = "Potential " ++ upperStr nm.1 ++
        " detected (redacted: " ++ _redact nm.1 ++ ")" ∧
      ¬ occursIn (slice "a@b.co".toList ab.1 ab.2)
        (piiFindingMk "email" (0, 6)).message.toList ∧
      ∀ p ∈ (piiFindingMk "email" (0, 6)).metadata, ∀ v, p.2 = MetaVal.str v →
        ¬ occursIn (slice "a@b.co".toList ab.1 ab.2) v.toList) :=
  ⟨by decide,
   pii_finding_never_echoes_match ["email"] "a@b.co".toList _ (by decide)⟩

/-! ### Input normalisation (`engine.normalize_text`)

`normalize_text` applies `unicodedata.normalize("NFKC", ·)`, strips the
zero-width class of `_ZERO_WIDTH_RE`, and folds `_HOMOGLYPH_MAP`.  NFKC is
modelled by the canonical decompose / reorder / compose algorithm over the
fragment of the Unicode character database exercised in this file: the only
non-inert entry needed is U+00E1 = `a` + U+0301 (combining class 230); on
every other code point appearing below the model is the identity map, as is
full NFKC. -/

def acuteChar : Char := Char.ofNat 0x301

def aAcute : Char := Char.ofNat 0xe1

/-- Canonical combining class (fragment: only U+0301 is nonzero). -/
def ccc (c : Char) : Nat := if c.toNat = 0x301 then 230 else 0

/-- Canonical/compatibility decomposition table (fragment). -/
def decompTable (c : Char) : Option (List Char) :=
  if c.toNat = 0xe1 then some ['a', acuteChar] else none

def canonDecomp (s : List Char) : List Char :=
  s.flatMap (fun c => (decompTable c).getD [c])

/-- Insert a combining mark into an already-ordered run: it moves right
past marks of strictly smaller combining class (stable sort by ccc). -/
def insMark (c : Char) : List Char → List Char
  | [] => [c]
  | d :: ds => if 0 < ccc d ∧ ccc d < ccc c then d :: insMark c ds else c :: d :: ds

/-- Canonical ordering: stable sort of nonzero-ccc runs. -/
def canonOrder : List Char → List Char
  | [] => []
  | c :: cs => if 0 < ccc c then insMark c (canonOrder cs) else c :: canonOrder cs

/-- Primary composite table (fragment). -/
def composePair (a b : Char) : Option Char :=
  if a = 'a' ∧ b = acuteChar then some aAcute else none

/-- Canonical composition: walk the text keeping the last starter and the
combining marks seen since it; a character combines with the starter when
not blocked by an intervening mark of greater-or-equal class. -/
def composeRun (st : Char) (marks : List Char) : List Char → List Char
  | [] => st :: marks
  | x :: xs =>
    if ccc x = 0 then
      match (if marks.isEmpty then composePair st x else none) with
      | some p => composeRun p marks xs
      | none => st :: (marks ++ composeRun x [] xs)
    else
      if ((marks.getLast?.map ccc).getD 0) < ccc x then
        match composePair st x with
        | some p => composeRun p marks xs
        | none => composeRun st (marks ++ [x]) xs
      else composeRun st (marks ++ [x]) xs

def canonCompose : List Char → List Char
  | [] => []
  | c :: rest => composeRun c [] rest

def nfkc (s : List Char) : List Char := canonCompose (canonOrder (canonDecomp s))

/-- The code points of `_ZERO_WIDTH_RE`. -/
def isZeroWidth (c : Char) : Bool :=
  c.toNat = 0x200b || c.toNat = 0x200c || c.toNat = 0x200d || c.toNat = 0x200e ||
  c.toNat = 0x200f || c.toNat = 0x2060 || c.toNat = 0x2061 || c.toNat = 0x2062 ||
  c.toNat = 0x2063 || c.toNat = 0x2064 || c.toNat = 0xfeff

/-- `engine._HOMOGLYPH_MAP`: common Cyrillic and fullwidth Latin glyphs
mapped to ASCII. -/
def _HOMOGLYPH_MAP : List (Char × Char) :=
  [
   (Char.ofNat 0x0410, 'A'), (Char.ofNat 0x0412, 'B'), (Char.ofNat 0x0421, 'C'), (Char.ofNat 0x0415, 'E'),
   (Char.ofNat 0x041d, 'H'), (Char.ofNat 0x041a, 'K'), (Char.ofNat 0x041c, 'M'), (Char.ofNat 0x041e, 'O'),
   (Char.ofNat 0x0420, 'P'), (Char.ofNat 0x0422, 'T'), (Char.ofNat 0x0425, 'X'), (Char.ofNat 0x0430, 'a'),
   (Char.ofNat 0x0435, 'e'), (Char.ofNat 0x043e, 'o'), (Char.ofNat 0x0440, 'p'), (Char.ofNat 0x0441, 'c'),
   (Char.ofNat 0x0443, 'y'), (Char.ofNat 0x0445, 'x'), (Char.ofNat 0xff21, 'A'), (Char.ofNat 0xff22, 'B'),
   (Char.ofNat 0xff23, 'C'), (Char.ofNat 0xff24, 'D'), (Char.ofNat 0xff25, 'E'), (Char.ofNat 0xff26, 'F'),
   (Char.ofNat 0xff27, 'G'), (Char.ofNat 0xff28, 'H'), (Char.ofNat 0xff29, 'I'), (Char.ofNat 0xff2a, 'J'),
   (Char.ofNat 0xff2b, 'K'), (Char.ofNat 0xff2c, 'L'), (Char.ofNat 0xff2d, 'M'), (Char.ofNat 0xff2e, 'N'),
   (Char.ofNat 0xff2f, 'O'), (Char.ofNat 0xff30, 'P'), (Char.ofNat 0xff31, 'Q'), (Char.ofNat 0xff32, 'R'),
   (Char.ofNat 0xff33, 'S'), (Char.ofNat 0xff34, 'T'), (Char.ofNat 0xff35, 'U'), (Char.ofNat 0xff36, 'V'),
   (Char.ofNat 0xff37, 'W'), (Char.ofNat 0xff38, 'X'), (Char.ofNat 0xff39, 'Y'), (Char.ofNat 0xff3a, 'Z'),
   (Char.ofNat 0xff41, 'a'), (Char.ofNat 0xff42, 'b'), (Char.ofNat 0xff43, 'c'), (Char.ofNat 0xff44, 'd'),
   (Char.ofNat 0xff45, 'e'), (Char.ofNat 0xff46, 'f'), (Char.ofNat 0xff47, 'g'), (Char.ofNat 0xff48, 'h'),
   (Char.ofNat 0xff49, 'i'), (Char.ofNat 0xff4a, 'j'), (Char.ofNat 0xff4b, 'k'), (Char.ofNat 0xff4c, 'l'),
   (Char.ofNat 0xff4d, 'm'), (Char.ofNat 0xff4e, 'n'), (Char.ofNat 0xff4f, 'o'), (Char.ofNat 0xff50, 'p'),
   (Char.ofNat 0xff51, 'q'), (Char.ofNat 0xff52, 'r'), (Char.ofNat 0xff53, 's'), (Char.ofNat 0xff54, 't'),
   (Char.ofNat 0xff55, 'u'), (Char.ofNat 0xff56, 'v'), (Char.ofNat 0xff57, 'w'), (Char.ofNat 0xff58, 'x'),
   (Char.ofNat 0xff59, 'y'), (Char.ofNat 0xff5a, 'z')]

/-- The `for glyph, replacement in _HOMOGLYPH_MAP.items(): text.replace`
loop: keys are distinct single characters and no replacement is itself a
key, so the loop is a pointwise character map. -/
def foldHomoglyphs (s : List Char) : List Char :=
  s.map (fun c => (_HOMOGLYPH_MAP.lookup c).getD c)

/-- `engine.normalize_text`: NFKC, strip zero-width, fold homoglyphs. -/
def normalize_text (s : List Char) : List Char :=
  foldHomoglyphs ((nfkc s).filter (fun c => !isZeroWidth c))

/-! ### Normalizer lemmas (C5, C9) -/

theorem lookup_mem_snd {l : List (Char × Char)} {k v : Char}
    (h : l.lookup k = some v) : v ∈ l.map Prod.snd := by
  induction l with
  | nil => simp [List.lookup] at h
  | cons p ps ih =>
    obtain ⟨a, b⟩ := p
    rw [List.lookup] at h
    cases hk : (k == a)
    · simp only [hk] at h
      exact List.mem_cons_of_mem _ (ih h)
    · simp only [hk, Option.some_inj] at h
      subst h
      simp

theorem lookup_none_of_big_keys {l : List (Char × Char)}
    (hkeys : ∀ p ∈ l, 128 ≤ p.1.toNat) {c : Char} (hc : c.toNat < 128) :
    l.lookup c = none := by
  induction l with
  | nil => rfl
  | cons p ps ih =>
    obtain ⟨a, b⟩ := p
    rw [List.lookup]
    have ha : 128 ≤ a.toNat := hkeys (a, b) (by simp)
    have hne : (c == a) = false := by
      simp only [beq_eq_false_iff_ne, ne_eq]
      rintro rfl
      omega
    simp only [hne]
    exact ih fun p hp => hkeys p (List.mem_cons_of_mem _ hp)

/-- C5 (amended): every code point of `_ZERO_WIDTH_RE`'s class is absent
from the normalized text, for every input. -/
theorem normalize_strips_zero_width (s : List Char) (c : Char)
    (hc : c ∈ normalize_text s) : isZeroWidth c = false := by
  simp only [normalize_text, foldHomoglyphs, List.mem_map] at hc
  obtain ⟨x, hx, rfl⟩ := hc
  have hxf : (!isZeroWidth x) = true := (List.mem_filter.1 hx).2
  cases hl : _HOMOGLYPH_MAP.lookup x with
  | none => simpa [hl] using hxf
  | some r =>
    have hr : r ∈ _HOMOGLYPH_MAP.map Prod.snd := lookup_mem_snd hl
    have hall : ∀ v ∈ _HOMOGLYPH_MAP.map Prod.snd, isZeroWidth v = false := by decide
    simpa [hl] using hall r hr

/-- Concrete instantiation of the zero-width stripping theorem. -/
theorem normalize_strips_zero_width_witness :
    'a' ∈ normalize_text ['a', Char.ofNat 0x200b] ∧ isZeroWidth 'a' = false :=
  ⟨by decide, normalize_strips_zero_width ['a', Char.ofNat 0x200b] 'a' (by decide)⟩

/-- C5 counterexample: `normalize_text` keeps U+00AD (absent from
`_ZERO_WIDTH_RE`), null bytes and ASCII control characters; only the
separate `sanitize_input` utility — which the engine never calls — strips
those. -/
theorem normalize_keeps_soft_hyphen_and_controls :
    normalize_text [Char.ofNat 0xad] = [Char.ofNat 0xad] ∧
    normalize_text ['a', Char.ofNat 0x0, 'b'] = ['a', Char.ofNat 0x0, 'b'] ∧
    normalize_text ['a', Char.ofNat 0x1, 'b'] = ['a', Char.ofNat 0x1, 'b'] := by
  refine ⟨by decide, by decide, by decide⟩

theorem ccc_ascii {c : Char} (h : c.toNat < 128) : ccc c = 0 := by
  unfold ccc
  rw [if_neg (by omega)]

theorem canonDecomp_ascii {s : List Char} (h : ∀ c ∈ s, c.toNat < 128) :
    canonDecomp s = s := by
  induction s with
  | nil => rfl
  | cons c cs ih =>
    have hc := h c (by simp)
    have hd : decompTable c = none := by unfold decompTable; rw [if_neg (by omega)]
    simp only [canonDecomp, List.flatMap_cons, hd, Option.getD_none, List.singleton_append,
      List.cons.injEq, true_and]
    exact ih fun x hx => h x (List.mem_cons_of_mem _ hx)

theorem canonOrder_ascii {s : List Char} (h : ∀ c ∈ s, c.toNat < 128) :
    canonOrder s = s := by
  induction s with
  | nil => rfl
  | cons c cs ih =>
    have hc := ccc_ascii (h c (by simp))
    have ihs := ih fun x hx => h x (List.mem_cons_of_mem _ hx)
    simp [canonOrder, hc, ihs]

theorem composeRun_ascii {rest : List Char} {st : Char} (hst : st.toNat < 128)
    (h : ∀ c ∈ rest, c.toNat < 128) : composeRun st [] rest = st :: rest := by
  induction rest generalizing st with
  | nil => rfl
  | cons x xs ih =>
    have hx := h x (by simp)
    have hccc := ccc_ascii hx
    have hcp : composePair st x = none := by
      unfold composePair
      rw [if_neg]
      rintro ⟨-, rfl⟩
      simp [acuteChar, Char.ofNat] at hx
    simp only [composeRun, hccc, if_pos rfl, List.isEmpty_nil, if_pos, hcp,
      List.nil_append, List.cons.injEq, true_and]
    exact ih hx fun c hc => h c (List.mem_cons_of_mem _ hc)

theorem canonCompose_ascii {s : List Char} (h : ∀ c ∈ s, c.toNat < 128) :
    canonCompose s = s := by
  cases s with
  | nil => rfl
  | cons c cs =>
    exact composeRun_ascii (h c (by simp)) fun x hx => h x (List.mem_cons_of_mem _ hx)

theorem foldHomoglyphs_ascii {s : List Char} (h : ∀ c ∈ s, c.toNat < 128) :
    foldHomoglyphs s = s := by
  induction s with
  | nil => rfl
  | cons c cs ih =>
    have hc := h c (by simp)
    have hkeys : ∀ p ∈ _HOMOGLYPH_MAP, 128 ≤ p.1.toNat := by decide
    have hl : _HOMOGLYPH_MAP.lookup c = none := lookup_none_of_big_keys hkeys hc
    simp only [foldHomoglyphs, List.map_cons, hl, Option.getD_none, List.cons.injEq, true_and]
    exact ih fun x hx => h x (List.mem_cons_of_mem _ hx)

theorem zeroWidth_ascii {c : Char} (h : c.toNat < 128) : isZeroWidth c = false := by
  simp only [isZeroWidth, Bool.or_eq_false_iff, decide_eq_false_iff_not]
  omega

/-- On ASCII input `normalize_text` is the identity. -/
theorem normalize_ascii_id {s : List Char} (h : ∀ c ∈ s, c.toNat < 128) :
    normalize_text s = s := by
  unfold normalize_text nfkc
  rw [canonDecomp_ascii h, canonOrder_ascii h, canonCompose_ascii h]
  rw [List.filter_eq_self.mpr (fun c hc => by rw [zeroWidth_ascii (h c hc)]; rfl)]
  exact foldHomoglyphs_ascii h

/-- C9 (amended): `normalize_text` is idempotent on ASCII inputs (it is
even the identity there). -/
theorem normalize_idempotent_on_ascii (s : List Char) (h : ∀ c ∈ s, c.toNat < 128) :
    normalize_text (normalize_text s) = normalize_text s := by
  rw [normalize_ascii_id h, normalize_ascii_id h]

/-- Concrete instantiation of the ASCII idempotence theorem. -/
theorem normalize_idempotent_on_ascii_witness :
    normalize_text (normalize_text "Hello world.".toList) =
      normalize_text "Hello world.".toList :=
  normalize_idempotent_on_ascii "Hello world.".toList (by decide)

/-- C9 counterexample: stripping a zero-width code point after NFKC can
create a newly composable pair, so a second normalisation pass composes
it: `a`, U+200B, U+0301 normalises to `a`, U+0301, which normalises again
to U+00E1. -/
theorem normalize_not_idempotent :
    normalize_text (normalize_text ['a', Char.ofNat 0x200b, acuteChar]) ≠
      normalize_text ['a', Char.ofNat 0x200b, acuteChar] := by decide

/-! ### RISK_TAXONOMY_v0 — the engine's weighted composite (`engine.py`) -/

/-- `_SEVERITY_POINTS`. -/
def _SEVERITY_POINTS : Severity → ℚ
  | .info => 0
  | .warning => 15
  | .error => 40
  | .critical => 80

structure RiskAxis where
  axis : String
  label : String
  weight : ℚ
  raw_score : ℚ
  weighted_score : ℚ
deriving DecidableEq, Repr

structure RiskTaxonomy where
  composite_risk_score : ℚ
  risk_level : String
  axes : List RiskAxis
deriving DecidableEq, Repr

structure RiskAxisSpec where
  axis : String
  label : String
  weight : ℚ
  validators : List String
deriving DecidableEq, Repr

/-- `engine._RISK_AXES`. -/
def _RISK_AXES : List RiskAxisSpec :=
  [⟨"A", "Synthetic Artifacts", 0.30, ["forbidden_phrases", "readability"]⟩,
   ⟨"B", "Hallucination / Factual Integrity", 0.25, ["readability"]⟩,
   ⟨"C", "Brand Safety / GARM", 0.20, ["brand_voice"]⟩,
   ⟨"D", "Regulatory Compliance / PII+Disclosure", 0.15, ["pii"]⟩,
   ⟨"E", "Adversarial Robustness / Injection", 0.10, ["prompt_injection"]⟩]

def _risk_level (score : ℚ) : String :=
  if score < 20 then "GREEN"
  else if score < 50 then "YELLOW"
  else if score < 80 then "ORANGE"
  else "RED"

/-- `{r.validator_name: r for r in results}`: a Python dict comprehension
keeps the last occurrence of a duplicated key. -/
def resultsMap (results : List ValidationResult) (name : String) :
    Option ValidationResult :=
  results.reverse.find? (fun r => r.validator_name == name)

/-- Python `round(x, d)` rounds half to even; exact on the rationals
appearing here, which the source computes on exactly representable
floats. -/
def roundHalfEven (x : ℚ) : ℤ :=
  let f := ⌊x⌋
  let r := x - f
  if r < 1/2 then f
  else if 1/2 < r then f + 1
  else if f % 2 = 0 then f else f + 1

def round1 (x : ℚ) : ℚ := (roundHalfEven (x * 10) : ℚ) / 10

def round2 (x : ℚ) : ℚ := (roundHalfEven (x * 100) : ℚ) / 100

/-- One contributor's points inside `_axis_score_from_results`. -/
def axisContribution (result : ValidationResult) : ℚ :=
  if result.passed ∧ result.findings = [] then 0
  else if result.passed = false ∧ result.score.isSome then
    max 0 (100 - result.score.getD 0)
  else
    min ((result.findings.map (fun f => _SEVERITY_POINTS f.severity)).sum) 100

/-- `engine._axis_score_from_results`. -/
def _axis_score_from_results (validator_names : List String)
    (results : List ValidationResult) : ℚ :=
  let contribs := validator_names.filterMap (resultsMap results)
  if contribs.length = 0 then 0
  else min (((contribs.map axisContribution).sum) / contribs.length) 100

/-- A contributing check of the axis has a CRITICAL finding (the inner
loop of `_critical_escalation`, with its `break`). -/
def axisHasCritical (results : List ValidationResult) (ax : RiskAxisSpec) : Bool :=
  ax.validators.any (fun v =>
    match resultsMap results v with
    | none => false
    | some r => r.findings.any (fun f => f.severity == .critical))

/-- The `axes_with_criticals` set of `_critical_escalation`. -/
def axesWithCriticals (results : List ValidationResult) : Finset String :=
  _RISK_AXES.foldl
    (fun acc ax => if axisHasCritical results ax then insert ax.axis acc else acc) ∅

/-- `engine._critical_escalation`. -/
def _critical_escalation (results : List ValidationResult) : ℚ :=
  let n := (axesWithCriticals results).card
  if n = 0 then 0
  else if n = 1 then 40
  else if n = 2 then 80
  else 100

/-- `engine.compute_risk_taxonomy`. -/
def compute_risk_taxonomy (results : List ValidationResult) : RiskTaxonomy :=
  let axes := _RISK_AXES.map (fun ax =>
    let raw := _axis_score_from_results ax.validators results
    RiskAxis.mk ax.axis ax.label ax.weight (round1 raw) (round2 (raw * ax.weight)))
  let weighted_sum :=
    (_RISK_AXES.map (fun ax => _axis_score_from_results ax.validators results * ax.weight)).sum
  let composite := round1 (min (weighted_sum + _critical_escalation results) 100)
  { composite_risk_score := composite
    risk_level := _risk_level composite
    axes := axes }

/-! ### The other taxonomy variant (`risk_taxonomy.py`), never used by the
engine -/

structure RiskAxisDefinition where
  axis_id : String
  name : String
  weight : ℚ
  validator_names : List String
  description : String
deriving DecidableEq, Repr

/-- `risk_taxonomy.RISK_AXES` (weights 0.30/0.25/0.25/0.10/0.10). -/
def RISK_AXES : List RiskAxisDefinition :=
  [⟨"A", "Synthetic Content Artifacts", 0.30, ["forbidden_phrases", "brand_voice"],
    "Detects AI-generated phrasing, forbidden clichés, and off-brand tone."⟩,
   ⟨"B", "PII Exposure", 0.25, ["pii"],
    "Flags personally identifiable information leakage."⟩,
   ⟨"C", "Prompt Injection / Adversarial", 0.25, ["prompt_injection"],
    "Catches hidden prompt-injection and jailbreak attempts."⟩,
   ⟨"D", "Readability & Audience Fit", 0.10, ["readability"],
    "Ensures content readability falls within target range."⟩,
   ⟨"E", "Overall Coherence & Policy Compliance", 0.10, [],
    "Aggregate policy compliance derived from all validator signals."⟩]

/-! ### C3 / C6 theorems -/

/-- The fold building `axes_with_criticals` over axis definitions with
pairwise distinct ids counts the qualifying definitions. -/
theorem card_fold_insert (p : RiskAxisSpec → Bool) :
    ∀ (defs : List RiskAxisSpec) (acc : Finset String),
      (∀ ax ∈ defs, ax.axis ∉ acc) → (defs.map (·.axis)).Nodup →
      (defs.foldl (fun acc ax => if p ax then insert ax.axis acc else acc) acc).card =
        acc.card + (defs.filter p).length := by
  intro defs
  induction defs with
  | nil => intro acc _ _; simp
  | cons d ds ih =>
    intro acc hacc hnodup
    simp only [List.map_cons, List.nodup_cons] at hnodup
    by_cases hp : p d
    · have hd : d.axis ∉ acc := hacc d (by simp)
      have hcard : (insert d.axis acc).card = acc.card + 1 :=
        Finset.card_insert_of_not_mem hd
      have hds : ∀ ax ∈ ds, ax.axis ∉ insert d.axis acc := by
        intro ax hax
        simp only [Finset.mem_insert, not_or]
        constructor
        · intro he
          exact hnodup.1 (he ▸ List.mem_map_of_mem (·.axis) hax)
        · exact hacc ax (List.mem_cons_of_mem _ hax)
      simp only [List.foldl_cons, hp, if_true, List.filter_cons, hp]
      rw [ih (insert d.axis acc) hds hnodup.2, hcard]
      simp [Nat.add_comm, Nat.add_assoc, Nat.add_left_comm]
    · simp only [List.foldl_cons, hp, if_false, List.filter_cons]
      rw [if_neg (by simp [hp])]
      exact ih acc (fun ax hax => hacc ax (List.mem_cons_of_mem _ hax)) hnodup.2

/-- C3.  The composite risk score is
`round₁(min(Σ_axes raw·weight + escalation, 100))`, and the escalation is
0 / 40 / 80 / 100 according to `k`, the number of distinct axes with at
least one CRITICAL finding among their contributing checks. -/
theorem composite_risk_formula (results : List ValidationResult) :
    (compute_risk_taxonomy results).composite_risk_score =
      round1 (min
        ((_RISK_AXES.map
          (fun ax => _axis_score_from_results ax.validators results * ax.weight)).sum +
          _critical_escalation results) 100) ∧
    (_critical_escalation results =
      let k := (_RISK_AXES.filter (axisHasCritical results)).length
      if k = 0 then 0 else if k = 1 then 40 else if k = 2 then 80 else 100) := by
  constructor
  · rfl
  · have hcard : (axesWithCriticals results).card =
        (_RISK_AXES.filter (axisHasCritical results)).length := by
      have := card_fold_insert (axisHasCritical results) _RISK_AXES ∅
        (by intro ax _; simp) (by decide)
      simpa [axesWithCriticals] using this
    simp only [_critical_escalation, hcard]

/-- C6.  The taxonomy emitted by the engine carries exactly the five axes
A-E with weights 0.30/0.25/0.20/0.15/0.10 summing to 1 (well within the
spec's ±0.001 invariant) and the contributing-check mapping
A = forbidden_phrases+readability, B = readability, C = brand_voice,
D = pii, E = prompt_injection; these weights differ from the unused
`risk_taxonomy.RISK_AXES` variant (0.30/0.25/0.25/0.10/0.10). -/
theorem engine_taxonomy_axes (results : List ValidationResult) :
    (compute_risk_taxonomy results).axes.map (fun a => (a.axis, a.weight)) =
      [("A", 0.30), ("B", 0.25), ("C", 0.20), ("D", 0.15), ("E", 0.10)] ∧
    (_RISK_AXES.map (·.weight)).sum = 1 ∧
    |(_RISK_AXES.map (·.weight)).sum - 1| ≤ 0.001 ∧
    _RISK_AXES.map (fun ax => (ax.axis, ax.validators)) =
      [("A", ["forbidden_phrases", "readability"]), ("B", ["readability"]),
       ("C", ["brand_voice"]), ("D", ["pii"]), ("E", ["prompt_injection"])] ∧
    _RISK_AXES.map (·.weight) ≠ RISK_AXES.map (·.weight) ∧
    RISK_AXES.map (·.weight) = [0.30, 0.25, 0.25, 0.10, 0.10] := by
  have hsum : (_RISK_AXES.map (·.weight)).sum = 1 := by
    simp [_RISK_AXES]
    norm_num
  refine ⟨?_, hsum, by rw [hsum]; norm_num, rfl, ?_, rfl⟩
  · simp [compute_risk_taxonomy, _RISK_AXES]
  · intro hEq
    have h2 : (0.20 : ℚ) = 0.25 := by
      have := congrArg (fun l => l.get? 2) hEq
      simpa [_RISK_AXES, RISK_AXES] using this
    norm_num at h2

/-! ### Prompt-injection detector (`validators/prompt_injection.py`)

The sixteen `_INJECTION_PATTERNS` regexes transcribed combinator by
combinator; all are `re.IGNORECASE` except `payload_separator`, and
`markdown_role_block` is additionally `re.MULTILINE` with a leading `^`. -/

/-- `\s+`. -/
def sp1 : Parser := pMany1 isSpacePy

/-- `\s*`. -/
def sp0 : Parser := pManyG isSpacePy

/-- A case-insensitive literal word. -/
def wI (s : String) : Parser := pLitI s.toList

/-- `.` (any character except newline). -/
def notNL (c : Char) : Bool := !(c.toNat = 10)

def injIgnoreInstructions : Parser :=
  pSeq (wI "ignore") (pSeq sp1 (pSeq (pOpt (pSeq (wI "all") sp1))
    (pSeq (pAlt (wI "previous") (pAlt (wI "prior") (wI "above")))
      (pSeq sp1 (pAlt (pSeq (wI "instruction") (pOpt (wI "s")))
        (pAlt (pSeq (wI "prompt") (pOpt (wI "s")))
          (pSeq (wI "rule") (pOpt (wI "s")))))))))

def injSystemPromptLeak : Parser :=
  pSeq (pAlt (wI "show") (pAlt (wI "reveal") (pAlt (wI "print")
      (pAlt (wI "output") (wI "repeat")))))
    (pSeq sp1 (pSeq (pOpt (pSeq (wI "your") sp1))
      (pAlt (pSeq (wI "system") (pSeq sp1 (wI "prompt")))
        (pAlt (wI "instructions") (wI "rules")))))

def injRoleOverride : Parser :=
  pSeq (wI "you") (pSeq sp1 (pSeq (wI "are") (pSeq sp1 (pSeq (wI "now")
    (pSeq sp1 (pSeq (pOpt (pSeq (wI "a") sp1))
      (pAlt (wI "DAN") (pAlt (wI "unrestricted")
        (pAlt (wI "jailbroken") (wI "evil"))))))))))

def injDelimiter : Parser :=
  pSeq (pLit "```".toList) (pSeq sp0
    (pSeq (pAlt (wI "system") (pAlt (wI "assistant") (wI "user")))
      (pSeq sp0 (pChar '\n'))))

def injEncoded : Parser :=
  pSeq (pAlt (wI "base64") (pAlt (wI "rot13") (wI "hex")))
    (pSeq sp0 (pSeq (pAlt (wI "decode") (wI "encode"))
      (pSeq sp0 (pPred (fun c => c = ':' || c = '=')))))

def injDoAnythingNow : Parser :=
  pSeq (pAlt (wI "DAN")
      (pSeq (wI "do") (pSeq sp1 (pSeq (wI "anything") (pSeq sp1 (wI "now"))))))
    (pSeq sp1 (wI "mode"))

def injInstructionOverride : Parser :=
  pSeq (pAlt (wI "new") (pAlt (pSeq (wI "update") (pOpt (wI "d"))) (wI "override")))
    (pSeq sp1 (pSeq (pOpt (pSeq (wI "system") sp1))
      (pSeq (pAlt (pSeq (wI "instruction") (pOpt (wI "s")))
          (pAlt (wI "prompt") (pSeq (wI "rule") (pOpt (wI "s")))))
        (pSeq sp0 (pPred (fun c => c = ':' || c = '='))))))

def injHiddenText : Parser :=
  pSeq (pChar '<') (pSeq sp0
    (pSeq (pAlt (wI "hidden") (pAlt (wI "invisible") (wI "secret")))
      (pSeq sp0 (pChar '>'))))

def injForgetEverything : Parser :=
  pSeq (wI "forget") (pSeq sp1
    (pSeq (pAlt (wI "everything") (pAlt (wI "all") (wI "what")))
      (pSeq sp1 (pSeq (pAlt (wI "you") (wI "I"))
        (pSeq sp1 (pAlt (wI "know") (pAlt (wI "said") (wI "told"))))))))

def injActAs : Parser :=
  pSeq (pAlt (wI "act") (pAlt (wI "behave") (wI "respond")))
    (pSeq sp1 (pSeq (wI "as") (pSeq sp1 (pSeq (pOpt (pSeq (wI "if") sp1))
      (pSeq (pOpt (pSeq (wI "you")
          (pSeq sp1 (pSeq (pAlt (wI "are") (wI "were")) sp1))))
        (pSeq (pOpt (pSeq (wI "a") sp1))
          (pAlt (wI "different") (pAlt (wI "new") (wI "another")))))))))

def injTemplate : Parser :=
  pAlt (pSeq (pLit "\x7b\x7b".toList) (pSeq (pManyLazy notNL) (pLit "\x7d\x7d".toList)))
    (pAlt (pSeq (pLit "$\x7b".toList) (pSeq (pManyLazy notNL) (pChar '\x7d')))
      (pSeq (pLit "<%".toList) (pSeq (pManyLazy notNL) (pLit "%>".toList))))

def injMarkdownRoleBlock : Parser :=
  pSeq (pAlt (pLit "###".toList) (pAlt (pLit "##".toList) (pLit "#".toList)))
    (pSeq sp0 (pSeq (pAlt (wI "system") (pAlt (wI "user") (wI "assistant")))
      (pSeq sp0 (pOpt (pAlt (wI "prompt") (pAlt (wI "message") (wI "role")))))))

def injXmlTag : Parser :=
  pSeq (pChar '<') (pSeq sp0 (pSeq (pOpt (pChar '/'))
    (pSeq (pAlt (wI "system") (pAlt (wI "instruction") (pAlt (wI "prompt")
        (pAlt (pSeq (wI "rule") (pOpt (wI "s"))) (wI "context")))))
      (pSeq sp0 (pChar '>')))))

def injContinuation : Parser :=
  pSeq (pAlt (wI "continue") (pAlt (wI "resume") (wI "proceed")))
    (pSeq sp1 (pSeq (pAlt (wI "from") (wI "with"))
      (pSeq sp1 (pSeq (pOpt (pSeq (wI "the") sp1))
        (pSeq (pAlt (wI "real") (pAlt (wI "actual") (pAlt (wI "original") (wI "true"))))
          (pSeq sp1 (pAlt (pSeq (wI "instruction") (pOpt (wI "s")))
            (pAlt (wI "prompt") (wI "task")))))))))

def injPayloadSeparator : Parser :=
  pAlt (pRepGe (fun c => c = '-') 5)
    (pAlt (pRepGe (fun c => c = '=') 5)
      (pAlt (pRepGe (fun c => c = '_') 5) (pRepGe (fun c => c = '*') 5)))

def injCognitiveHacking : Parser :=
  pSeq (pAlt (wI "pretend") (pAlt (wI "imagine") (pAlt (wI "suppose")
      (wI "hypothetically"))))
    (pSeq sp1 (pSeq (pOpt (pSeq (wI "that") sp1))
      (pSeq (pAlt (wI "you") (wI "there"))
        (pSeq sp1 (pSeq (pAlt (wI "are") (pAlt (wI "is") (pAlt (wI "were") (wI "have"))))
          (pSeq sp1 (pSeq (wI "no")
            (pSeq sp1 (pAlt (pSeq (wI "rule") (pOpt (wI "s")))
              (pAlt (pSeq (wI "restriction") (pOpt (wI "s")))
                (pAlt (pSeq (wI "limit") (pOpt (wI "s")))
                  (pAlt (pSeq (wI "guideline") (pOpt (wI "s")))
                    (pSeq (wI "filter") (pOpt (wI "s")))))))))))))))

/-- Plain matcher: no anchors. -/
def mkMatcher (p : Parser) : Matcher := fun _ s => matchLen p s

/-- `re.MULTILINE` `^`: position 0 or just after a newline. -/
def mkLineStartMatcher (p : Parser) : Matcher := fun prev s =>
  if prev = none || prev = some '\n' then matchLen p s else none

/-- `_INJECTION_PATTERNS`, in source order. -/
def _INJECTION_PATTERNS : List (String × Matcher) :=
  [("ignore_instructions", mkMatcher injIgnoreInstructions),
   ("system_prompt_leak", mkMatcher injSystemPromptLeak),
   ("role_override", mkMatcher injRoleOverride),
   ("delimiter_injection", mkMatcher injDelimiter),
   ("encoded_injection", mkMatcher injEncoded),
   ("do_anything_now", mkMatcher injDoAnythingNow),
   ("instruction_override", mkMatcher injInstructionOverride),
   ("hidden_text", mkMatcher injHiddenText),
   ("forget_everything", mkMatcher injForgetEverything),
   ("act_as", mkMatcher injActAs),
   ("template_injection", mkMatcher injTemplate),
   ("markdown_role_block", mkLineStartMatcher injMarkdownRoleBlock),
   ("xml_tag_injection", mkMatcher injXmlTag),
   ("continuation_attack", mkMatcher injContinuation),
   ("payload_separator", mkMatcher injPayloadSeparator),
   ("cognitive_hacking", mkMatcher injCognitiveHacking)]

def _MAX_MATCHED_DISPLAY : Nat := 60

/-- `_truncate_match`. -/
def _truncate_match (s : List Char) : List Char :=
  if s.length ≤ _MAX_MATCHED_DISPLAY then s
  else s.take _MAX_MATCHED_DISPLAY ++ "...".toList

def promptInjectionFindingMk (pattern_name : String) (text : List Char)
    (ab : Nat × Nat) : Finding :=
  { validator_name := "prompt_injection"
    severity := .critical
    message := "Prompt injection pattern: " ++ pattern_name
    span := some ab
    metadata := [("pattern", .str pattern_name),
                 ("matched", .str (String.mk (_truncate_match (slice text ab.1 ab.2))))] }

/-- `PromptInjectionDetector.validate`; `triggered` is incremented once
per appended finding, so it equals the findings count. -/
def promptInjectionValidate (text : List Char) : ValidationResult :=
  let findings := _INJECTION_PATTERNS.flatMap
    (fun nm => (finditer nm.2 text).map (promptInjectionFindingMk nm.1 text))
  let triggered := findings.length
  let risk_score : ℚ := min ((triggered : ℚ) / (max _INJECTION_PATTERNS.length 1)) 1
  { validator_name := "prompt_injection"
    passed := triggered = 0
    score := some (round1 ((1 - risk_score) * 100))
    findings := findings }

/-- `round1` at the score values reachable with 16 families. -/
theorem round1_score_ne_100 (n : Nat) (hn : n ≠ 0) :
    round1 ((1 - min ((n : ℚ) / 16) 1) * 100) ≠ 100 := by
  have hn1 : 1 ≤ n := Nat.one_le_iff_ne_zero.mpr hn
  by_cases hle : n ≤ 16
  · interval_cases n <;> norm_num [round1, roundHalfEven]
  · have h16 : (16 : ℚ) ≤ (n : ℚ) := by exact_mod_cast (by omega : (16 : ℕ) ≤ n)
    have h1 : min ((n : ℚ) / 16) 1 = 1 := by
      rw [min_eq_right]
      rw [le_div_iff₀ (by norm_num)]
      linarith
    rw [h1]
    norm_num [round1, roundHalfEven]

/-- C7.  The prompt-injection score is
`round₁((1 − min(n/16, 1))·100)` where `n` is the total number of pattern
matches (= findings), the check passes iff `n = 0`, and passes iff the
score equals 100. -/
theorem prompt_injection_score_law (text : List Char) :
    (promptInjectionValidate text).score =
      some (round1 ((1 - min (((promptInjectionValidate text).findings.length : ℚ) / 16) 1)
        * 100)) ∧
    ((promptInjectionValidate text).passed = true ↔
      (promptInjectionValidate text).findings.length = 0) ∧
    ((promptInjectionValidate text).passed = true ↔
      (promptInjectionValidate text).score = some 100) := by
  have hs : (promptInjectionValidate text).score =
      some (round1 ((1 - min (((promptInjectionValidate text).findings.length : ℚ) /
        (max _INJECTION_PATTERNS.length 1)) 1) * 100)) := rfl
  have hFn : max _INJECTION_PATTERNS.length 1 = 16 := rfl
  have hsc : (promptInjectionValidate text).score =
      some (round1 ((1 - min (((promptInjectionValidate text).findings.length : ℚ) / 16) 1)
        * 100)) := by
    rw [hs, hFn]
    norm_num
  have hp : (promptInjectionValidate text).passed = true ↔
      (promptInjectionValidate text).findings.length = 0 := by
    simp [promptInjectionValidate]
  refine ⟨hsc, hp, ?_⟩
  rw [hp]
  constructor
  · intro h0
    rw [hsc, h0]
    norm_num [round1, roundHalfEven]
  · intro hscore
    by_contra hne
    rw [hsc] at hscore
    simp only [Option.some_inj] at hscore
    exact round1_score_ne_100 _ hne hscore

/-! ### Python scalar values, `str()` rendering, and override payloads -/

inductive PyVal where
  | str (s : String)
  | int (n : ℤ)
  | float (q : ℚ)
  | bool (b : Bool)
  | listStr (l : List String)
deriving DecidableEq, Repr

/-- A value of the `config_overrides` mapping: a nested dict or a
non-dict scalar (the latter is rejected by the sanitizer). -/
inductive OverrideVal where
  | dict (entries : List (String × PyVal))
  | other (v : PyVal)
deriving DecidableEq, Repr

/-- `repr` of a float: a finite decimal expansion when one exists (the
case for every value in the source). -/
def floatRepr (q : ℚ) : String :=
  match (List.range 17).find? (fun d => (q * (10 : ℚ) ^ (d + 1)).den = 1) with
  | some d =>
    let scaled : ℤ := (q * (10 : ℚ) ^ (d + 1)).num
    let sign := if scaled < 0 then "-" else ""
    let a := scaled.natAbs
    let ip := a / 10 ^ (d + 1)
    let fp := a % 10 ^ (d + 1)
    let fs := toString fp
    sign ++ toString ip ++ "." ++ String.mk (List.replicate (d + 1 - fs.length) '0') ++ fs
  | none => if q.den = 1 then toString q.num ++ ".0" else toString q.num ++ "/" ++ toString q.den

/-- `", ".join(...)`-style joining. -/
def joinSep (sep : String) : List String → String
  | [] => ""
  | [x] => x
  | x :: y :: xs => x ++ sep ++ joinSep sep (y :: xs)

/-- Python `repr` of a scalar (as used inside `str()` of a dict). -/
def pyRepr : PyVal → String
  | .str s => "\x27" ++ s ++ "\x27"
  | .int n => toString n
  | .float q => floatRepr q
  | .bool b => if b then "True" else "False"
  | .listStr l => "[" ++ joinSep ", " (l.map (fun x => "\x27" ++ x ++ "\x27")) ++ "]"

def pyStrOfDict (entries : List (String × PyVal)) : String :=
  "\x7b" ++ joinSep ", "
    (entries.map (fun kv => "\x27" ++ kv.1 ++ "\x27: " ++ pyRepr kv.2)) ++ "\x7d"

/-- Python `str()` of a top-level override value (`str` of a string has no
quotes; `str` of a dict is its `repr`). -/
def pyStrOv : OverrideVal → String
  | .dict es => pyStrOfDict es
  | .other (.str s) => s
  | .other v => pyRepr v

/-- `sum(len(str(k)) + len(str(v)) for k, v in raw.items())`. -/
def serializedLen (raw : List (String × OverrideVal)) : Nat :=
  (raw.map (fun kv => kv.1.length + (pyStrOv kv.2).length)).sum

def _LOCKED_OVERRIDE_KEYS : List String :=
  ["pii_patterns_enabled", "forbidden_phrases", "max_text_length"]

/-- `ValidationEngine._sanitize_overrides`. -/
def _sanitize_overrides (raw : List (String × OverrideVal)) :
    List (String × List (String × PyVal)) :=
  if serializedLen raw > 16384 then []
  else raw.filterMap (fun kv =>
    match kv.2 with
    | .other _ => none
    | .dict entries =>
      let filtered := entries.filter (fun e => !_LOCKED_OVERRIDE_KEYS.contains e.1)
      if filtered.isEmpty then none else some (kv.1, filtered))

/-! ### Settings, request, response -/

def _DEFAULT_FORBIDDEN_PHRASES : List String :=
  ["as an ai", "as a language model", "i cannot and will not", "i\x27m just an ai",
   "delve", "leverage", "synergy", "game-changer", "circle back", "deep dive",
   "unpack", "at the end of the day"]

/-- `config.Settings` (the fields the validation core reads). -/
structure Settings where
  max_text_length : Nat := 500000
  max_findings_per_validator : Nat := 50
  forbidden_phrases : List String := _DEFAULT_FORBIDDEN_PHRASES
  pii_patterns_enabled : List String := ["email", "phone", "ssn", "credit_card"]
  brand_voice_target_score : ℚ := 60.0
  brand_voice_keywords : List String := []
  brand_voice_tone : String := "professional"
  readability_min_score : ℚ := 30.0
  readability_max_score : ℚ := 80.0
deriving DecidableEq, Repr

def defaultSettings : Settings := {}

structure ValidationRequest where
  text : List Char
  validators : List String := ["all"]
  config_overrides : List (String × OverrideVal) := []
deriving DecidableEq, Repr

/-- `ValidationResponse` without the fields outside the verification scope
(`request_id`, `timestamp`, `version` are an opaque token, a clock read
and a constant stamp). -/
structure ValidationResponse where
  passed : Bool
  results : List ValidationResult
  risk : RiskTaxonomy
  text_length : Nat
  validators_run : Nat
deriving DecidableEq, Repr

/-- The merged per-check view `{**settings_dump, **overrides[name]}`:
override entries shadow the settings fields. -/
structure Cfg where
  settings : Settings
  ov : List (String × PyVal)
deriving Repr

/-- Numeric config read (`score >= target` style use): Python accepts
int, float and bool (bool is an int); any other type raises `TypeError`
at the comparison. -/
def Cfg.getNum (cfg : Cfg) (key : String) (dflt : ℚ) : Except String ℚ :=
  match cfg.ov.lookup key with
  | none => .ok dflt
  | some (.float q) => .ok q
  | some (.int n) => .ok (n : ℚ)
  | some (.bool b) => .ok (if b then 1 else 0)
  | some _ => .error "TypeError: comparison with non-numeric override"

/-- Iterating a config value as strings (`[p.lower() for p in v]`):
a list iterates its items, a string iterates its characters, anything
else raises `TypeError`. -/
def Cfg.getIterStr (cfg : Cfg) (key : String) (dflt : List String) :
    Except String (List String) :=
  match cfg.ov.lookup key with
  | none => .ok dflt
  | some (.listStr l) => .ok l
  | some (.str s) => .ok (s.toList.map (fun c => String.mk [c]))
  | some _ => .error "TypeError: not iterable"

/-! ### Forbidden-phrase check (`validators/forbidden_phrases.py`) -/

def lowerString (s : String) : String := String.mk (lowerStr s.toList)

/-- `re.compile(re.escape(p), re.IGNORECASE)` scanning. -/
def litIMatcher (w : List Char) : Matcher := fun _ s => matchLen (pLitI w) s

def forbiddenPhraseFindingMk (phrase : String) (ab : Nat × Nat) : Finding :=
  { validator_name := "forbidden_phrases"
    severity := .error
    message := "Forbidden phrase detected: \x27" ++ phrase ++ "\x27"
    span := some ab
    metadata := [("phrase", .str phrase)] }

/-- `ForbiddenPhraseDetector.__init__`: lowercase the configured phrases
(the `forbidden_phrases` key is locked, so after sanitisation the merged
config always carries the settings value). -/
def forbiddenPhrasesInit (cfg : Cfg) : Except String (List String) :=
  (cfg.getIterStr "forbidden_phrases" cfg.settings.forbidden_phrases).map
    (fun phrases => phrases.map lowerString)

def forbiddenPhrasesValidate (phrases : List String) (text : List Char) :
    ValidationResult :=
  let findings := phrases.flatMap
    (fun p => (finditer (litIMatcher p.toList) text).map (forbiddenPhraseFindingMk p))
  { validator_name := "forbidden_phrases"
    passed := findings.isEmpty
    findings := findings }

/-! ### PII check: the enabled-pattern predicate from config -/

def isSubList (needle : List Char) : List Char → Bool
  | [] => needle.isEmpty
  | c :: cs => needle.isPrefixOf (c :: cs) || isSubList needle cs

/-- `PIIValidator.__init__`: `{k: v for k, v in _PII_PATTERNS.items() if
k in enabled}` — `in` on a list is membership, on a string it is
substring containment, and on a non-iterable it raises. -/
def piiInit (cfg : Cfg) : Except String (String → Bool) :=
  match cfg.ov.lookup "pii_patterns_enabled" with
  | none => .ok (fun k => cfg.settings.pii_patterns_enabled.contains k)
  | some (.listStr l) => .ok (fun k => l.contains k)
  | some (.str s) => .ok (fun k => isSubList k.toList s.toList)
  | some _ => .error "TypeError: argument is not iterable"

/-- `PIIValidator.validate` over an enabled-name predicate. -/
def piiValidateGen (active : String → Bool) (text : List Char) : ValidationResult :=
  let pats := _PII_PATTERNS.filter (fun nm => active nm.1)
  let findings := pats.flatMap (fun nm => (finditer nm.2 text).map (piiFindingMk nm.1))
  { validator_name := "pii"
    passed := findings.isEmpty
    findings := findings }

/-! ### Brand-voice check (`validators/brand_voice.py`) -/

def _TONE_PENALTY_WORDS : List (String × List String) :=
  [("professional",
    ["lol", "omg", "bruh", "gonna", "wanna", "kinda", "sorta", "tbh", "ngl",
     "fr fr", "yo", "dude", "bro"]),
   ("casual",
    ["hereby", "aforementioned", "pursuant", "notwithstanding", "heretofore",
     "therein", "whereas"])]

def isWordAt (s : List Char) (i : Nat) : Bool :=
  match s.get? i with
  | some c => isWordPy c
  | none => false

def isWordO : Option Char → Bool
  | some c => isWordPy c
  | none => false

/-- Case-insensitive prefix match. -/
def prefixICase : List Char → List Char → Bool
  | [], _ => true
  | _ :: _, [] => false
  | c :: cs, d :: ds => (lowerPy d = lowerPy c) && prefixICase cs ds

/-- `\b<word>\b` with `re.IGNORECASE`: the literal must match with a
word/non-word transition at both ends. -/
def wbLitMatcher (w : List Char) : Matcher := fun prev s =>
  if prefixICase w s && (isWordO prev != isWordAt s 0) &&
      (isWordAt s (w.length - 1) != isWordAt s w.length) then
    some w.length
  else none

/-- `_build_word_patterns`: multi-word tokens are plain case-insensitive
literals, single tokens get word boundaries. -/
def buildWordMatcher (w : String) : Matcher :=
  if w.toList.contains ' ' then litIMatcher w.toList else wbLitMatcher w.toList

/-- `\b(?:w₁|w₂|...)\b`: ordered alternation inside shared boundaries. -/
def wbAltMatcher (ws : List String) : Matcher := fun prev s =>
  ws.foldl (fun acc w =>
    match acc with
    | some r => some r
    | none => wbLitMatcher w.toList prev s) none

/-- The two `_POSITIVE_SIGNALS` patterns. -/
def _POSITIVE_SIGNALS : List Matcher :=
  [wbAltMatcher ["we", "our", "us"], wbAltMatcher ["you", "your"]]

/-- Python `str.split()`: split on whitespace runs, dropping empties. -/
def splitWs : List Char → List (List Char)
  | [] => []
  | c :: cs =>
    if isSpacePy c then splitWs cs
    else
      match splitWs cs with
      | [] => [[c]]
      | w :: ws =>
        match cs with
        | [] => [[c]]
        | d :: _ => if isSpacePy d then [c] :: w :: ws else (c :: w) :: ws

/-- State built by `BrandVoiceScorer.__init__`: lowered keyword list and
the tone-penalty word list (nonexistent tones fall back to `[]`; an
unhashable tone value raises). -/
structure BrandVoiceState where
  keywords : List String
  penaltyWords : List String
deriving DecidableEq, Repr

def brandVoiceInit (cfg : Cfg) : Except String BrandVoiceState := do
  let rawKeywords ← cfg.getIterStr "brand_voice_keywords" cfg.settings.brand_voice_keywords
  let tone ← match cfg.ov.lookup "brand_voice_tone" with
    | none => Except.ok cfg.settings.brand_voice_tone
    | some (.str s) => Except.ok s
    | some (.listStr _) => Except.error "TypeError: unhashable type"
    | some _ => Except.ok "\x00nonstring"
  Except.ok { keywords := rawKeywords.map lowerString
              penaltyWords := (_TONE_PENALTY_WORDS.lookup tone).getD [] }

def brandVoiceWarningMk (word : String) (occurrences : Nat) : Finding :=
  { validator_name := "brand_voice"
    severity := .warning
    message := "Off-tone word detected: \x27" ++ word ++ "\x27 (" ++
      toString occurrences ++ "x)"
    metadata := [("word", .str word), ("count", .int occurrences)] }

/-- `BrandVoiceScorer.validate`.  The findings are computed before the
`score >= target` comparison, which is where a non-numeric override
raises — inside the engine's try block. -/
def brandVoiceValidate (st : BrandVoiceState) (cfg : Cfg) (text : List Char) :
    Except String ValidationResult := do
  let word_count := max (splitWs text).length 1
  let hits := st.penaltyWords.map
    (fun w => (w, (finditer (buildWordMatcher w) text).length))
  let penalty_count := (hits.map Prod.snd).sum
  let warnFindings := (hits.filter (fun h => h.2 > 0)).map
    (fun h => brandVoiceWarningMk h.1 h.2)
  let score0 : ℚ := 70 - min (penalty_count * 5 : ℚ) 40
  let score1 : ℚ :=
    if st.keywords.isEmpty then score0
    else
      let kwHits := (st.keywords.filter
        (fun kw => !(finditer (wbLitMatcher kw.toList) text).isEmpty)).length
      score0 + ((kwHits : ℚ) / st.keywords.length) * 15
  let signal_hits := (_POSITIVE_SIGNALS.map (fun m => (finditer m text).length)).sum
  let engagement : ℚ := min ((signal_hits : ℚ) / word_count) 0.15
  let score2 := score1 + engagement * 100
  let score := max 0 (min 100 score2)
  let target ← cfg.getNum "brand_voice_target_score" cfg.settings.brand_voice_target_score
  let passed := score ≥ target
  let findings := if passed then warnFindings else
    warnFindings ++
      [{ validator_name := "brand_voice"
         severity := .error
         message := "Brand voice score " ++ floatRepr (round1 score) ++
           " below target " ++ floatRepr target
         metadata := [("score", .num score), ("target", .num target)] }]
  Except.ok
    { validator_name := "brand_voice"
      passed := passed
      score := some (round1 score)
      findings := findings }

/-! ### Readability check (`validators/readability.py`) -/

/-- Modelled from the spec: the Flesch reading-ease and grade-level
formulas with a conventional vowel-group syllable heuristic; the source
delegates these to the external `textstat` library, which is not part of
this repository.  No claim depends on the numeric value. -/
def isVowel (c : Char) : Bool :=
  let l := lowerPy c
  l = 'a' || l = 'e' || l = 'i' || l = 'o' || l = 'u' || l = 'y'

def syllablesAux : List Char → Bool → Nat
  | [], _ => 0
  | c :: cs, prevVowel =>
    (if isVowel c && !prevVowel then 1 else 0) + syllablesAux cs (isVowel c)

def syllablesOf (w : List Char) : Nat := max 1 (syllablesAux w false)

def sentenceCount (t : List Char) : Nat :=
  max 1 (t.filter (fun c => c = '.' || c = '!' || c = '?')).length

def fleschStats (t : List Char) : ℚ × ℚ :=
  let ws := splitWs t
  let W : ℚ := max ws.length 1
  let S : ℚ := sentenceCount t
  let Syl : ℚ := (ws.map syllablesOf).sum
  (206.835 - 1.015 * (W / S) - 84.6 * (Syl / W),
   0.39 * (W / S) + 11.8 * (Syl / W) - 15.59)

/-- `ReadabilityScorer.validate`: the threshold comparisons are where a
non-numeric override raises, inside the engine's try block. -/
def readabilityValidate (cfg : Cfg) (text : List Char) :
    Except String ValidationResult := do
  let stats := fleschStats text
  let fk := stats.1
  let grade := stats.2
  let minS ← cfg.getNum "readability_min_score" cfg.settings.readability_min_score
  let maxS ← cfg.getNum "readability_max_score" cfg.settings.readability_max_score
  let passed := minS ≤ fk ∧ fk ≤ maxS
  let finding :=
    if fk < minS then
      { validator_name := "readability", severity := Severity.warning
        message := "Content too complex: Flesch score " ++ floatRepr (round1 fk) ++
          " below minimum " ++ floatRepr minS
        metadata := [("flesch_score", MetaVal.num fk), ("grade_level", .num grade),
          ("threshold", .str "min")] }
    else if fk > maxS then
      { validator_name := "readability", severity := Severity.warning
        message := "Content too simple: Flesch score " ++ floatRepr (round1 fk) ++
          " above maximum " ++ floatRepr maxS
        metadata := [("flesch_score", MetaVal.num fk), ("grade_level", .num grade),
          ("threshold", .str "max")] }
    else
      { validator_name := "readability", severity := Severity.info
        message := "Flesch score " ++ floatRepr (round1 fk) ++ ", grade level " ++
          floatRepr (round1 grade)
        metadata := [("flesch_score", MetaVal.num fk), ("grade_level", .num grade)] }
  Except.ok
    { validator_name := "readability"
      passed := decide passed
      score := some (round1 fk)
      findings := [finding] }

/-! ### The engine (`ValidationEngine.run`) -/

def _REGISTRY : List String :=
  ["forbidden_phrases", "pii", "brand_voice", "prompt_injection", "readability"]

/-- `ValidationEngine._resolve_validators`. -/
def _resolve_validators (names : List String) : List String :=
  if names.contains "all" then _REGISTRY
  else names.filter (fun n => _REGISTRY.contains n)

/-- Construct the (possibly transient) validator and invoke it.  The
outer `Except` is a construction-time error — raised outside the
engine's `try` and so aborting the whole request; the inner `Except` is
a `validate`-time error, which the engine catches. -/
def buildAndValidate (name : String) (cfg : Cfg) (text : List Char) :
    Except String (Except String ValidationResult) :=
  if name = "forbidden_phrases" then
    (forbiddenPhrasesInit cfg).map (fun ph => .ok (forbiddenPhrasesValidate ph text))
  else if name = "pii" then
    (piiInit cfg).map (fun active => .ok (piiValidateGen active text))
  else if name = "brand_voice" then
    (brandVoiceInit cfg).map (fun st => brandVoiceValidate st cfg text)
  else if name = "prompt_injection" then .ok (.ok (promptInjectionValidate text))
  else if name = "readability" then .ok (readabilityValidate cfg text)
  else .error "KeyError"

/-- One loop iteration of `run`: merge sanitized overrides, invoke, and
catch any `validate`-time error as `ValidationResult(passed=False,
findings=[])`. -/
def runStep (settings : Settings)
    (overrides : List (String × List (String × PyVal))) (text : List Char)
    (name : String) : Except String ValidationResult :=
  let cfg : Cfg := ⟨settings, (overrides.lookup name).getD []⟩
  (buildAndValidate name cfg text).map (fun inner =>
    match inner with
    | .ok r => r
    | .error _ => { validator_name := name, passed := false, findings := [] })

/-- The `for name in selected` loop of `run`, accumulating results (an
uncaught error aborts the whole loop, as in Python). -/
def runLoop (settings : Settings)
    (overrides : List (String × List (String × PyVal))) (text : List Char) :
    List String → Except String (List ValidationResult)
  | [] => .ok []
  | name :: rest => do
    let r ← runStep settings overrides text name
    let rs ← runLoop settings overrides text rest
    pure (r :: rs)

/-- The per-check loop of `run` on the normalized text. -/
def runSelectedResults (settings : Settings) (request : ValidationRequest) :
    Except String (List ValidationResult) :=
  runLoop settings (_sanitize_overrides request.config_overrides)
    (normalize_text request.text) (_resolve_validators request.validators)

/-- Thousands separators of `f"{n:,}"`. -/
def fmtComma (n : Nat) : String :=
  let ds := (toString n).toList
  let groups := (ds.reverse.toChunks 3).map List.reverse
  joinSep "," ((groups.reverse).map (fun g => String.mk g))

def lengthGateFinding (textLen maxLen : Nat) : Finding :=
  { validator_name := "_engine"
    severity := .error
    message := "Text length " ++ fmtComma textLen ++
      " exceeds configured maximum of " ++ fmtComma maxLen ++ " characters." }

def lengthGateResult (textLen maxLen : Nat) : ValidationResult :=
  { validator_name := "_engine"
    passed := false
    findings := [lengthGateFinding textLen maxLen] }

/-- `ValidationEngine.run`.  A construction-time error in a transient
validator escapes (`Except.error`); every other outcome is a response. -/
def ValidationEngine.run (settings : Settings) (request : ValidationRequest) :
    Except String ValidationResponse :=
  if request.text.length > settings.max_text_length then
    .ok { passed := false
          results := [lengthGateResult request.text.length settings.max_text_length]
          risk := { composite_risk_score := 100.0, risk_level := "RED", axes := [] }
          text_length := request.text.length
          validators_run := 0 }
  else
    (runSelectedResults settings request).map (fun results =>
      { passed := !results.isEmpty && results.all (·.passed)
        results := results
        risk := compute_risk_taxonomy results
        text_length := request.text.length
        validators_run := results.length })

/-! ### Selection and dispatch lemmas (C10) -/

theorem brandVoiceValidate_name {st : BrandVoiceState} {cfg : Cfg} {text : List Char}
    {vr : ValidationResult} (h : brandVoiceValidate st cfg text = .ok vr) :
    vr.validator_name = "brand_voice" := by
  simp only [brandVoiceValidate, bind, Except.bind] at h
  cases ht : cfg.getNum "brand_voice_target_score" cfg.settings.brand_voice_target_score with
  | error e => simp only [ht] at h; cases h
  | ok t =>
    simp only [ht, Except.ok.injEq] at h
    rw [← h]

theorem readabilityValidate_name {cfg : Cfg} {text : List Char}
    {vr : ValidationResult} (h : readabilityValidate cfg text = .ok vr) :
    vr.validator_name = "readability" := by
  simp only [readabilityValidate, bind, Except.bind] at h
  cases h1 : cfg.getNum "readability_min_score" cfg.settings.readability_min_score with
  | error e => simp only [h1] at h; cases h
  | ok mn =>
    simp only [h1] at h
    cases h2 : cfg.getNum "readability_max_score" cfg.settings.readability_max_score with
    | error e => simp only [h2] at h; cases h
    | ok mx =>
      simp only [h2, Except.ok.injEq] at h
      rw [← h]

/-- Whatever a dispatch step returns — a real result or the caught-error
substitute — carries the dispatched validator's name. -/
theorem runStep_name {settings : Settings}
    {overrides : List (String × List (String × PyVal))} {text : List Char}
    {name : String} {r : ValidationResult}
    (h : runStep settings overrides text name = .ok r) : r.validator_name = name := by
  simp only [runStep] at h
  cases hb : buildAndValidate name ⟨settings, (overrides.lookup name).getD []⟩ text with
  | error e => rw [hb] at h; cases h
  | ok inner =>
    rw [hb] at h
    simp only [Except.map, Except.ok.injEq] at h
    subst h
    cases inner with
    | error e => rfl
    | ok v =>
      unfold buildAndValidate at hb
      by_cases h1 : name = "forbidden_phrases"
      · subst h1
        rw [if_pos rfl] at hb
        cases hi : forbiddenPhrasesInit ⟨settings, (overrides.lookup "forbidden_phrases").getD []⟩ with
        | error e => rw [hi] at hb; cases hb
        | ok ph =>
          rw [hi] at hb
          simp only [Except.map, Except.ok.injEq] at hb
          cases hb
          rfl
      · rw [if_neg h1] at hb
        by_cases h2 : name = "pii"
        · subst h2
          rw [if_pos rfl] at hb
          cases hi : piiInit ⟨settings, (overrides.lookup "pii").getD []⟩ with
          | error e => rw [hi] at hb; cases hb
          | ok act =>
            rw [hi] at hb
            simp only [Except.map, Except.ok.injEq] at hb
            cases hb
            rfl
        · rw [if_neg h2] at hb
          by_cases h3 : name = "brand_voice"
          · subst h3
            rw [if_pos rfl] at hb
            cases hi : brandVoiceInit ⟨settings, (overrides.lookup "brand_voice").getD []⟩ with
            | error e => rw [hi] at hb; cases hb
            | ok st =>
              rw [hi] at hb
              simp only [Except.map, Except.ok.injEq] at hb
              exact brandVoiceValidate_name hb
          · rw [if_neg h3] at hb
            by_cases h4 : name = "prompt_injection"
            · subst h4
              rw [if_pos rfl] at hb
              simp only [Except.ok.injEq] at hb
              cases hb
              rfl
            · rw [if_neg h4] at hb
              by_cases h5 : name = "readability"
              · subst h5
                rw [if_pos rfl] at hb
                simp only [Except.ok.injEq] at hb
                exact readabilityValidate_name hb
              · rw [if_neg h5] at hb
                cases hb

theorem runLoop_names (settings : Settings)
    (overrides : List (String × List (String × PyVal))) (text : List Char) :
    ∀ (sel : List String) (results : List ValidationResult),
      runLoop settings overrides text sel = .ok results →
      results.map (·.validator_name) = sel := by
  intro sel
  induction sel with
  | nil =>
    intro results h
    simp only [runLoop, Except.ok.injEq] at h
    subst h
    rfl
  | cons a as ih =>
    intro results h
    simp only [runLoop] at h
    cases hfa : runStep settings overrides text a with
    | error e => simp [hfa, Except.bind, bind] at h
    | ok r =>
      simp only [hfa, bind, Except.bind] at h
      cases hmm : runLoop settings overrides text as with
      | error e => simp [hmm] at h
      | ok rs =>
        simp only [hmm, pure, Except.pure, Except.ok.injEq] at h
        subst h
        simp only [List.map_cons]
        rw [runStep_name hfa, ih rs hmm]

/-- C10.  `["all"]` anywhere in the selection expands to the five
registry checks in registry order; otherwise each known name is run once
per occurrence in request order, so duplicates yield duplicate results;
the response reports exactly those results and counts them all. -/
theorem run_selection_law (settings : Settings) (request : ValidationRequest)
    (results : List ValidationResult)
    (hres : runSelectedResults settings request = .ok results)
    (hlen : request.text.length ≤ settings.max_text_length) :
    results.map (·.validator_name) = _resolve_validators request.validators ∧
    _resolve_validators request.validators =
      (if request.validators.contains "all" then
        ["forbidden_phrases", "pii", "brand_voice", "prompt_injection", "readability"]
      else request.validators.filter (fun n => _REGISTRY.contains n)) ∧
    ValidationEngine.run settings request = .ok
      { passed := !results.isEmpty && results.all (·.passed)
        results := results
        risk := compute_risk_taxonomy results
        text_length := request.text.length
        validators_run := results.length } := by
  refine ⟨?_, rfl, ?_⟩
  · exact runLoop_names _ _ _ _ results hres
  · unfold ValidationEngine.run
    rw [if_neg (by omega)]
    rw [hres]
    rfl

/-- Concrete instantiation of the selection law: a duplicated name is run
twice and an unknown name is skipped. -/
theorem run_selection_law_witness :
    runSelectedResults defaultSettings ⟨"Hi!".toList, ["pii", "pii", "bogus"], []⟩ =
      .ok [{ validator_name := "pii", passed := true, findings := [] },
           { validator_name := "pii", passed := true, findings := [] }] ∧
    "Hi!".toList.length ≤ defaultSettings.max_text_length ∧
    ([{ validator_name := "pii", passed := true, findings := [] },
      { validator_name := "pii", passed := true, findings := [] }] :
        List ValidationResult).map (·.validator_name) =
      _resolve_validators ["pii", "pii", "bogus"] :=
  ⟨by decide, by decide,
   (run_selection_law defaultSettings ⟨"Hi!".toList, ["pii", "pii", "bogus"], []⟩
     [{ validator_name := "pii", passed := true, findings := [] },
      { validator_name := "pii", passed := true, findings := [] }]
     (by decide) (by decide)).1⟩

/-! ### A check that throws during `validate` (C4)

A per-request override `{"brand_voice": {"brand_voice_target_score":
"high"}}` passes the sanitizer (the key is not locked) and reaches
`score >= self._target_score`, where comparing a float with a string
raises `TypeError` inside the engine's try block. -/

def c4Request : ValidationRequest :=
  { text := "Hello world".toList
    validators := ["brand_voice"]
    config_overrides :=
      [("brand_voice", .dict [("brand_voice_target_score", .str "high")])] }

/-- The substituted result the engine produces for a crashed check. -/
def c4SubResult : ValidationResult :=
  { validator_name := "brand_voice", passed := false, score := none, findings := [] }

/-- C4.  When a selected check's invocation throws, the engine does not
abort: it substitutes `ValidationResult(passed=False, findings=[])` —
with an EMPTY findings list, not the ERROR engine finding the spec (and
the repository's own `test_exception_emits_error_finding`) requires; the
resulting failing response carries no finding at all and no escalation. -/
theorem crashed_check_yields_empty_findings :
    runSelectedResults defaultSettings c4Request = .ok [c4SubResult] ∧
    ∃ resp, ValidationEngine.run defaultSettings c4Request = .ok resp ∧
      resp.passed = false ∧
      resp.results = [c4SubResult] ∧
      resp.results.flatMap (·.findings) = [] ∧
      _critical_escalation resp.results = 0 ∧
      resp.validators_run = 1 := by
  have hres : runSelectedResults defaultSettings c4Request = .ok [c4SubResult] := by decide
  have hrun : ValidationEngine.run defaultSettings c4Request = .ok
      { passed := false
        results := [c4SubResult]
        risk := compute_risk_taxonomy [c4SubResult]
        text_length := 11
        validators_run := 1 } := by
    unfold ValidationEngine.run
    rw [if_neg (by decide)]
    rw [hres]
    rfl
  refine ⟨hres, _, hrun, rfl, rfl, rfl, ?_, rfl⟩
  have hc : (axesWithCriticals [c4SubResult]).card = 0 := by decide
  simp [_critical_escalation, hc]

/-! ### C2: locked-override two-run equivalence and the 16 KiB cap -/

/-- A value long enough to push the serialized override size past the
sanitizer's 16 384-character cap. -/
def bigStr : String := String.mk (List.replicate 17000 'a')

def c2Inner : List (String × PyVal) := [("brand_voice_tone", PyVal.str "casual")]

/-- Request that sets the locked key `max_text_length` (with an oversized
value) next to a legitimate tone override. -/
def c2WithReq : ValidationRequest :=
  { text := "lol".toList
    validators := ["brand_voice"]
    config_overrides :=
      [("brand_voice", .dict (c2Inner ++ [("max_text_length", PyVal.str bigStr)]))] }

/-- The identical request with the locked key absent. -/
def c2WithoutReq : ValidationRequest :=
  { text := "lol".toList
    validators := ["brand_voice"]
    config_overrides := [("brand_voice", .dict c2Inner)] }

theorem c2_size_big : serializedLen c2WithReq.config_overrides > 16384 := by
  have hb : bigStr.length = 17000 := by
    rw [bigStr, String.length]
    exact List.length_replicate 17000 _
  simp only [c2WithReq, c2Inner, serializedLen, List.map_cons, List.map_nil,
    List.sum_cons, List.sum_nil, pyStrOv, pyStrOfDict, joinSep, pyRepr,
    List.cons_append, List.nil_append, String.length_append, hb]
  omega

theorem c2_sanitize_with : _sanitize_overrides c2WithReq.config_overrides = [] := by
  unfold _sanitize_overrides
  rw [if_pos c2_size_big]

theorem c2_sanitize_without :
    _sanitize_overrides c2WithoutReq.config_overrides = [("brand_voice", c2Inner)] := by
  decide


/-- The brand-voice state built from default settings (professional tone). -/
def c2ProfState : BrandVoiceState :=
  ⟨[], ["lol","omg","bruh","gonna","wanna","kinda","sorta","tbh","ngl","fr fr","yo","dude","bro"]⟩

/-- The brand-voice state built when the tone override "casual" survives. -/
def c2CasualState : BrandVoiceState :=
  ⟨[], ["hereby","aforementioned","pursuant","notwithstanding","heretofore","therein","whereas"]⟩

/-- With all overrides dropped, the professional tone flags "lol": one
warning finding, and the score (65.0) still meets the default target. -/
theorem c2_bv_with :
    ∃ vr, buildAndValidate "brand_voice" ⟨defaultSettings, []⟩ "lol".toList = .ok (.ok vr) ∧
      vr.findings.length = 1 ∧ vr.passed = true := by
  have hinit : brandVoiceInit ⟨defaultSettings, []⟩ = .ok c2ProfState := by decide
  have htgt : Cfg.getNum ⟨defaultSettings, []⟩ "brand_voice_target_score"
      (Cfg.settings ⟨defaultSettings, []⟩).brand_voice_target_score =
      .ok defaultSettings.brand_voice_target_score := rfl
  have hkw : c2ProfState.keywords.isEmpty = true := by decide
  have hpen : (List.map Prod.snd (List.map
      (fun w => (w, (finditer (buildWordMatcher w) "lol".toList).length))
      c2ProfState.penaltyWords)).sum = 1 := by decide
  have hsig : (List.map (fun m => (finditer m "lol".toList).length)
      _POSITIVE_SIGNALS).sum = 0 := by decide
  have hwc : (splitWs "lol".toList).length ⊔ 1 = 1 := by decide
  simp only [buildAndValidate]
  rw [if_pos trivial, hinit]
  simp only [Except.map]
  simp only [brandVoiceValidate, bind, Except.bind, htgt, hkw, if_true, hpen, hsig,
    hwc, Nat.cast_one, Nat.cast_zero]
  have h60 : defaultSettings.brand_voice_target_score = 60 := by
    norm_num [defaultSettings]
  have hE : (0:ℚ) ⊔ 100 ⊓ (70 - 1 * 5 ⊓ 40 + (0 / 1 ⊓ 0.15) * 100) ≥
      defaultSettings.brand_voice_target_score := by
    rw [h60]
    norm_num [min_def, max_def]
  rw [if_pos hE]
  refine ⟨_, rfl, ?_, ?_⟩
  · decide
  · exact decide_eq_true hE

/-- With the tone override surviving, the casual tone flags nothing in
"lol": no finding, score 70.0 meets the default target. -/
theorem c2_bv_without :
    ∃ vr, buildAndValidate "brand_voice" ⟨defaultSettings, c2Inner⟩ "lol".toList = .ok (.ok vr) ∧
      vr.findings.length = 0 ∧ vr.passed = true := by
  have hinit : brandVoiceInit ⟨defaultSettings, c2Inner⟩ = .ok c2CasualState := by decide
  have htgt : Cfg.getNum ⟨defaultSettings, c2Inner⟩ "brand_voice_target_score"
      (Cfg.settings ⟨defaultSettings, c2Inner⟩).brand_voice_target_score =
      .ok defaultSettings.brand_voice_target_score := rfl
  have hkw : c2CasualState.keywords.isEmpty = true := by decide
  have hpen : (List.map Prod.snd (List.map
      (fun w => (w, (finditer (buildWordMatcher w) "lol".toList).length))
      c2CasualState.penaltyWords)).sum = 0 := by decide
  have hsig : (List.map (fun m => (finditer m "lol".toList).length)
      _POSITIVE_SIGNALS).sum = 0 := by decide
  have hwc : (splitWs "lol".toList).length ⊔ 1 = 1 := by decide
  simp only [buildAndValidate]
  rw [if_pos trivial, hinit]
  simp only [Except.map]
  simp only [brandVoiceValidate, bind, Except.bind, htgt, hkw, if_true, hpen, hsig,
    hwc, Nat.cast_one, Nat.cast_zero]
  have h60 : defaultSettings.brand_voice_target_score = 60 := by
    norm_num [defaultSettings]
  have hE : (0:ℚ) ⊔ 100 ⊓ (70 - 0 * 5 ⊓ 40 + (0 / 1 ⊓ 0.15) * 100) ≥
      defaultSettings.brand_voice_target_score := by
    rw [h60]
    norm_num [min_def, max_def]
  rw [if_pos hE]
  refine ⟨_, rfl, ?_, ?_⟩
  · decide
  · exact decide_eq_true hE

/-- A brand-voice-only request whose one check succeeds yields a
single-result response. -/
theorem c2_run_shape (req : ValidationRequest) (ovv : List (String × PyVal))
    (vr : ValidationResult)
    (hval : req.validators = ["brand_voice"])
    (hlen : ¬ req.text.length > defaultSettings.max_text_length)
    (hcfg : ((_sanitize_overrides req.config_overrides).lookup "brand_voice").getD [] = ovv)
    (hbv : buildAndValidate "brand_voice" ⟨defaultSettings, ovv⟩ (normalize_text req.text) =
      .ok (.ok vr)) :
    ∃ resp, ValidationEngine.run defaultSettings req = .ok resp ∧
      resp.results = [vr] ∧ resp.passed = vr.passed := by
  unfold ValidationEngine.run runSelectedResults
  rw [if_neg hlen, hval]
  have hres : _resolve_validators ["brand_voice"] = ["brand_voice"] := by decide
  rw [hres]
  simp only [runLoop, runStep, hcfg, hbv, bind, Except.bind, Except.map]
  exact ⟨_, rfl, rfl, by simp⟩

/-- C2 counterexample.  Two requests identical except that one also sets
the locked key `max_text_length` inside its brand-voice overrides do NOT
produce equivalent runs: the oversized locked value pushes the
serialized overrides past the sanitizer 16 384-character cap, so ALL
overrides (including the legitimate tone override next to it) are
dropped, and the two runs return different results. -/
theorem sanitizer_cap_defeats_locked_equivalence :
    c2WithReq.text = c2WithoutReq.text ∧
    c2WithReq.validators = c2WithoutReq.validators ∧
    c2WithReq.config_overrides =
      [("brand_voice", .dict (c2Inner ++ [("max_text_length", PyVal.str bigStr)]))] ∧
    c2WithoutReq.config_overrides = [("brand_voice", .dict c2Inner)] ∧
    _LOCKED_OVERRIDE_KEYS.contains "max_text_length" = true ∧
    ∃ r1 r2, ValidationEngine.run defaultSettings c2WithReq = .ok r1 ∧
      ValidationEngine.run defaultSettings c2WithoutReq = .ok r2 ∧
      r1.results.map (fun r => r.findings.length) = [1] ∧
      r2.results.map (fun r => r.findings.length) = [0] ∧
      r1.results ≠ r2.results := by
  obtain ⟨vr1, hbv1, hl1, hp1⟩ := c2_bv_with
  obtain ⟨vr2, hbv2, hl2, hp2⟩ := c2_bv_without
  have hnorm1 : normalize_text c2WithReq.text = "lol".toList := by decide
  have hnorm2 : normalize_text c2WithoutReq.text = "lol".toList := by decide
  obtain ⟨r1, hr1, hres1, hpass1⟩ := c2_run_shape c2WithReq [] vr1 rfl (by decide)
    (by rw [c2_sanitize_with]; rfl) (by rw [hnorm1]; exact hbv1)
  obtain ⟨r2, hr2, hres2, hpass2⟩ := c2_run_shape c2WithoutReq c2Inner vr2 rfl (by decide)
    (by rw [c2_sanitize_without]; rfl) (by rw [hnorm2]; exact hbv2)
  refine ⟨rfl, rfl, rfl, rfl, by decide, r1, r2, hr1, hr2, ?_, ?_, ?_⟩
  · rw [hres1]; simp [hl1]
  · rw [hres2]; simp [hl2]
  · intro he
    rw [hres1, hres2] at he
    have := congrArg (List.map (fun r => r.findings.length)) he
    simp [hl1, hl2] at this

/-- Removing a locked key from an inner override dict does not change
the sanitized overrides, provided the removal does not flip the
16 384-character cap condition. -/
theorem sanitize_drop_locked (outerPre outerPost : List (String × OverrideVal))
    (name key : String) (v : PyVal) (pre post : List (String × PyVal))
    (hk : _LOCKED_OVERRIDE_KEYS.contains key = true)
    (hcap : serializedLen (outerPre ++ (name, OverrideVal.dict (pre ++ (key, v) :: post)) :: outerPost) > 16384 ↔
      serializedLen (outerPre ++ (name, OverrideVal.dict (pre ++ post)) :: outerPost) > 16384) :
    _sanitize_overrides (outerPre ++ (name, OverrideVal.dict (pre ++ (key, v) :: post)) :: outerPost) =
    _sanitize_overrides (outerPre ++ (name, OverrideVal.dict (pre ++ post)) :: outerPost) := by
  unfold _sanitize_overrides
  by_cases hc : serializedLen (outerPre ++ (name, OverrideVal.dict (pre ++ (key, v) :: post)) :: outerPost) > 16384
  · rw [if_pos hc, if_pos (hcap.mp hc)]
  · rw [if_neg hc, if_neg (fun h => hc (hcap.mpr h))]
    have hfe : List.filter (fun e => !_LOCKED_OVERRIDE_KEYS.contains e.1)
        (pre ++ (key, v) :: post) =
        List.filter (fun e => !_LOCKED_OVERRIDE_KEYS.contains e.1) (pre ++ post) := by
      simp only [List.filter_append, List.filter_cons, hk, Bool.not_true, Bool.false_eq_true,
        if_false]
    simp only [List.filterMap_append, List.filterMap_cons, hfe]

/-- `run` reads the raw overrides only through `_sanitize_overrides`. -/
theorem run_congr_overrides (settings : Settings) (t : List Char) (vs : List String)
    (o1 o2 : List (String × OverrideVal))
    (h : _sanitize_overrides o1 = _sanitize_overrides o2) :
    ValidationEngine.run settings { text := t, validators := vs, config_overrides := o1 } =
    ValidationEngine.run settings { text := t, validators := vs, config_overrides := o2 } := by
  unfold ValidationEngine.run runSelectedResults
  simp only [h]

/-- C2 (amended).  For every request that sets a locked-set key
(`pii_patterns_enabled`, `forbidden_phrases`, `max_text_length`) inside
an override dict for some check, the run is equivalent to the run of the
identical request with that key absent — PROVIDED removing the key does
not flip the sanitizer 16 384-character size-cap condition.  Without
that proviso the claim is refuted: the locked entry still counts toward
`serialized` size, and crossing the cap discards every override. -/
theorem locked_override_two_run_equivalence (settings : Settings) (text : List Char)
    (validators : List String) (outerPre outerPost : List (String × OverrideVal))
    (name : String) (pre post : List (String × PyVal)) (key : String) (v : PyVal)
    (hk : _LOCKED_OVERRIDE_KEYS.contains key = true)
    (hcap : serializedLen (outerPre ++ (name, OverrideVal.dict (pre ++ (key, v) :: post)) :: outerPost) > 16384 ↔
      serializedLen (outerPre ++ (name, OverrideVal.dict (pre ++ post)) :: outerPost) > 16384) :
    ValidationEngine.run settings
      { text := text, validators := validators,
        config_overrides := outerPre ++ (name, OverrideVal.dict (pre ++ (key, v) :: post)) :: outerPost } =
    ValidationEngine.run settings
      { text := text, validators := validators,
        config_overrides := outerPre ++ (name, OverrideVal.dict (pre ++ post)) :: outerPost } :=
  run_congr_overrides settings text validators _ _
    (sanitize_drop_locked outerPre outerPost name key v pre post hk hcap)

/-- C2 amended witness: a small request with the locked `max_text_length`
key set (and far below the size cap) runs exactly as without it. -/
theorem locked_override_two_run_equivalence_witness :
    _LOCKED_OVERRIDE_KEYS.contains "max_text_length" = true ∧
    (serializedLen ([] ++ ("pii", OverrideVal.dict ([("x", PyVal.str "y")] ++ ("max_text_length", PyVal.str "z") :: [])) :: []) > 16384 ↔
      serializedLen ([] ++ ("pii", OverrideVal.dict ([("x", PyVal.str "y")] ++ [])) :: []) > 16384) ∧
    ValidationEngine.run defaultSettings
      { text := "Hi".toList, validators := ["pii"],
        config_overrides := [] ++ ("pii", OverrideVal.dict ([("x", PyVal.str "y")] ++ ("max_text_length", PyVal.str "z") :: [])) :: [] } =
    ValidationEngine.run defaultSettings
      { text := "Hi".toList, validators := ["pii"],
        config_overrides := [] ++ ("pii", OverrideVal.dict ([("x", PyVal.str "y")] ++ [])) :: [] } :=
  ⟨by decide, by decide,
    locked_override_two_run_equivalence defaultSettings "Hi".toList ["pii"] [] []
      "pii" [("x", PyVal.str "y")] [] "max_text_length" (PyVal.str "z")
      (by decide) (by decide)⟩

end ContentShield
